import Mathlib

/-!
pygame C headers: bitmask accessors and per-channel blend equations

A shallow embedding of

* `pygame/include/bitmask.h`: the storage layout of `bitmask_t` and the three
  inline accessors `bitmask_getbit`, `bitmask_setbit`, `bitmask_clearbit`;
* `pygame/surface.h`: the blend macros `BLEND_ADD`, `BLEND_SUB`, `BLEND_MULT`,
  `BLEND_MIN`, `BLEND_MAX`, their `BLEND_RGBA_*` variants, `ALPHA_BLEND_COMP`,
  `ALPHA_BLEND` and `ALPHA_BLEND_PREMULTIPLIED`, the row loop `LOOP_UNROLLED4`,
  and the pixel macros `GET_PIXEL_24`, `GET_PIXEL`, `CREATE_PIXEL`,
  `SET_OFFSETS_24`, `SET_OFFSETS_32`;
* the operations that `bitmask.h` only declares (`bitmask_overlap`,
  `bitmask_overlap_area`, `bitmask_count`, `bitmask_invert`, `bitmask_draw`,
  `bitmask_erase`), modelled from the specification.

Conventions of the embedding.

* A C `int` is an `Int`.  The accessors do their index arithmetic in `size_t`;
  for the non-negative coordinates the header documents ("Coordinates start at
  (0,0)") the conversion `int -> size_t` preserves the value, and the index of
  a word that exists in storage cannot wrap, so the arithmetic is carried out
  over `Int` without reduction.
* A storage word (`BITMASK_W`, `unsigned long int`) is a `Nat` below
  `2 ^ BITMASK_W_LEN`.
* Reading or writing `bits[i]` outside the storage is undefined behaviour in C;
  the embedding returns `none` there.
* A macro that assigns to its arguments is a function on the record of the
  variables it is expanded on.
* Pixel memory is a function from byte offsets (relative to the pointer the
  macro is given) to bytes; a `Uint16` or `Uint32` access reads or writes two or
  four of them in the byte order of the machine.
-/

namespace Pygame

/-! ## bitmask.h -/

/-- The compilation target: the two implementation-defined constants that
`bitmask.h` reads, `CHAR_BIT` of `<limits.h>` and `sizeof(unsigned long int)`.
On the targets considered the storage word has a power-of-two number of bits
(32 or 64 in practice). -/
structure Target where
  CHAR_BIT : Nat
  sizeof_BITMASK_W : Nat
  word_pow2 : ∃ k, sizeof_BITMASK_W * CHAR_BIT = 2 ^ k

/-- LP64 (Linux, macOS): `unsigned long` has 8 bytes of 8 bits. -/
def lp64 : Target := ⟨8, 8, ⟨6, rfl⟩⟩

/-- ILP32 and LLP64 (32-bit targets, 64-bit Windows): `unsigned long` has 4 bytes of 8 bits. -/
def ilp32 : Target := ⟨8, 4, ⟨5, rfl⟩⟩

/-- `#define BITMASK_W_LEN (sizeof(BITMASK_W) * CHAR_BIT)` -/
def BITMASK_W_LEN (t : Target) : Nat := t.sizeof_BITMASK_W * t.CHAR_BIT

/-- `#define BITMASK_W_MASK (BITMASK_W_LEN - 1)` -/
def BITMASK_W_MASK (t : Target) : Int := (BITMASK_W_LEN t : Int) - 1

/-- `#define BITMASK_N(n) ((BITMASK_W)1 << (n))`, a shift inside a word of
`BITMASK_W_LEN` bits. -/
def BITMASK_N (t : Target) (n : Int) : Nat := (1 <<< n.toNat) % 2 ^ BITMASK_W_LEN t

/-- The operator `~` on a `BITMASK_W`: every one of the `BITMASK_W_LEN` bits is flipped. -/
def BITMASK_W_not (t : Target) (v : Nat) : Nat := (2 ^ BITMASK_W_LEN t - 1) ^^^ v

/-- `typedef struct bitmask { int w, h; BITMASK_W bits[1]; } bitmask_t;`
with the flexible storage `bits` as a list of words. -/
structure bitmask_t where
  w : Int
  h : Int
  bits : List Nat
deriving DecidableEq

/-- The index expression `x / BITMASK_W_LEN * m->h + y` shared by the three accessors. -/
def word_index (t : Target) (m : bitmask_t) (x y : Int) : Int :=
  x / (BITMASK_W_LEN t : Int) * m.h + y

/-- The shift count `x & BITMASK_W_MASK` shared by the three accessors. -/
def bit_offset (t : Target) (x : Int) : Int := Int.land x (BITMASK_W_MASK t)

/-- The read `m->bits[i]`; `none` when `i` is outside the storage. -/
def word_at (m : bitmask_t) (i : Int) : Option Nat :=
  if 0 ≤ i then m.bits[i.toNat]? else none

/-- The C function
`return (m->bits[x / BITMASK_W_LEN * m->h + y] & BITMASK_N(x & BITMASK_W_MASK)) != 0;` -/
def bitmask_getbit (t : Target) (m : bitmask_t) (x y : Int) : Option Int :=
  (word_at m (word_index t m x y)).map fun wd =>
    if wd &&& BITMASK_N t (bit_offset t x) ≠ 0 then 1 else 0

/-- The C function
`m->bits[x / BITMASK_W_LEN * m->h + y] |= BITMASK_N(x & BITMASK_W_MASK);` -/
def bitmask_setbit (t : Target) (m : bitmask_t) (x y : Int) : Option bitmask_t :=
  (word_at m (word_index t m x y)).map fun wd =>
    { m with
      bits := List.set m.bits (word_index t m x y).toNat (wd ||| BITMASK_N t (bit_offset t x)) }

/-- The C function
`m->bits[x / BITMASK_W_LEN * m->h + y] &= ~BITMASK_N(x & BITMASK_W_MASK);` -/
def bitmask_clearbit (t : Target) (m : bitmask_t) (x y : Int) : Option bitmask_t :=
  (word_at m (word_index t m x y)).map fun wd =>
    { m with
      bits := List.set m.bits (word_index t m x y).toNat
                (wd &&& BITMASK_W_not t (BITMASK_N t (bit_offset t x))) }

/-- The number of storage words of a `w` by `h` mask, `ceil(w / BITMASK_W_LEN) * h`. -/
def storage_words (t : Target) (w h : Int) : Int :=
  (w + (BITMASK_W_LEN t : Int) - 1) / (BITMASK_W_LEN t : Int) * h

/-- An 8 by 8 mask on LP64 with one word per row, bit (3,3) set and every other bit clear. -/
def mask8 : bitmask_t := ⟨8, 8, [0, 0, 0, 8, 0, 0, 0, 0]⟩

/-- A 70 by 2 mask on LP64: two columns of words, four words in all. -/
def mask70 : bitmask_t := ⟨70, 2, [5, 0, 1, 40]⟩

/-! ## bitmask.c

`bitmask.h` declares `bitmask_overlap`, `bitmask_overlap_area`, `bitmask_invert`,
`bitmask_count`, `bitmask_draw` and `bitmask_erase`; their bodies are in
`bitmask.c`, which is not among the sources.  They are modelled from the
specification, on top of the accessors above. -/

/-- The coordinates `(x, y)` of a mask, `0 <= x < m.w` and `0 <= y < m.h`, column by column. -/
def coords (m : bitmask_t) : List (Int × Int) :=
  (List.range m.w.toNat).flatMap fun (x : Nat) =>
    (List.range m.h.toNat).map fun (y : Nat) => ((x : Int), (y : Int))

/-- Whether `(x, y)` is a coordinate of `m` at which `bitmask_getbit` returns 1. -/
def bit_is_set (t : Target) (m : bitmask_t) (x y : Int) : Bool :=
  decide (0 ≤ x ∧ x < m.w ∧ 0 ≤ y ∧ y < m.h) && decide (bitmask_getbit t m x y = some 1)

/-- Whether at the coordinate `p` of `a` a set bit of `a` coincides with a set bit of `b`
translated by `(xoffset, yoffset)`: bit `(bx, by)` of `b` lies over
`(bx + xoffset, by + yoffset)` of `a`. -/
def coincide (t : Target) (a b : bitmask_t) (xoffset yoffset : Int) (p : Int × Int) : Bool :=
  bit_is_set t a p.1 p.2 && bit_is_set t b (p.1 - xoffset) (p.2 - yoffset)

/-- Modelled from the spec: the body of `bitmask_overlap` (in `bitmask.c`, not among the
sources).  "true iff any bit of `b`, translated by `(xoffset, yoffset)` relative
to `a`'s origin, coincides with a set bit of `a`"; only the intersecting region
is tested.  The header has it return nonzero for true. -/
def bitmask_overlap (t : Target) (a b : bitmask_t) (xoffset yoffset : Int) : Int :=
  if (coords a).any (coincide t a b xoffset yoffset) then 1 else 0

/-- Modelled from the spec: the body of `bitmask_overlap_area` (in `bitmask.c`, not among
the sources).  "count of coincident set bits in the intersecting region". -/
def bitmask_overlap_area (t : Target) (a b : bitmask_t) (xoffset yoffset : Int) : Int :=
  ((coords a).countP (coincide t a b xoffset yoffset) : Nat)

/-- Modelled from the spec: the body of `bitmask_draw` (in `bitmask.c`, not among the
sources).  "in-place bitwise OR of translated `b` into `a`": every bit of `a`
that a set bit of the translated `b` lies over is set with `bitmask_setbit`. -/
def bitmask_draw (t : Target) (a b : bitmask_t) (xoffset yoffset : Int) : Option bitmask_t :=
  (coords a).foldlM
    (fun acc p =>
      if bit_is_set t b (p.1 - xoffset) (p.2 - yoffset) then bitmask_setbit t acc p.1 p.2
      else some acc)
    a

/-- Modelled from the spec: the body of `bitmask_erase` (in `bitmask.c`, not among the
sources).  "in-place `a &= ~translated(b)`": every bit of `a` that a set bit of
the translated `b` lies over is cleared with `bitmask_clearbit`. -/
def bitmask_erase (t : Target) (a b : bitmask_t) (xoffset yoffset : Int) : Option bitmask_t :=
  (coords a).foldlM
    (fun acc p =>
      if bit_is_set t b (p.1 - xoffset) (p.2 - yoffset) then bitmask_clearbit t acc p.1 p.2
      else some acc)
    a

/-- A 1 by 1 mask whose only bit is set. -/
def mask1 : bitmask_t := ⟨1, 1, [1]⟩

/-- A 3 by 2 mask on LP64 with bits (0,0) and (2,1) set. -/
def mask3 : bitmask_t := ⟨3, 2, [1, 4]⟩

/-- A 2 by 2 mask on LP64 with bits (0,0) and (1,1) set. -/
def mask2 : bitmask_t := ⟨2, 2, [1, 2]⟩

/-- The variables a blend macro is expanded on: the temporary `tmp`, the source
components `sR sG sB sA` and the destination components `dR dG dB dA`.  The
macros are type-generic; the temporary is a signed integer, and a component is
a `Uint8` whose value the macro reads after promotion to `int`.  A value that
a macro assigns to a component is kept as computed where it lies in 0..255 for
components in 0..255, and is converted with `store_Uint8` where it need not. -/
structure BlendVars where
  tmp : Int
  sR : Int
  sG : Int
  sB : Int
  sA : Int
  dR : Int
  dG : Int
  dB : Int
  dA : Int
deriving DecidableEq

/-- The macro `BLEND_ADD(tmp, sR, sG, sB, sA, dR, dG, dB, dA)`:
`tmp = dR + sR; dR = (tmp <= 255 ? tmp : 255);` and the same for G and B. -/
def BLEND_ADD (v : BlendVars) : BlendVars :=
  let v := { v with tmp := v.dR + v.sR }
  let v := { v with dR := if v.tmp ≤ 255 then v.tmp else 255 }
  let v := { v with tmp := v.dG + v.sG }
  let v := { v with dG := if v.tmp ≤ 255 then v.tmp else 255 }
  let v := { v with tmp := v.dB + v.sB }
  { v with dB := if v.tmp ≤ 255 then v.tmp else 255 }

/-- The macro `BLEND_SUB(tmp, sR, sG, sB, sA, dR, dG, dB, dA)`:
`tmp = dR - sR; dR = (tmp >= 0 ? tmp : 0);` and the same for G and B. -/
def BLEND_SUB (v : BlendVars) : BlendVars :=
  let v := { v with tmp := v.dR - v.sR }
  let v := { v with dR := if v.tmp ≥ 0 then v.tmp else 0 }
  let v := { v with tmp := v.dG - v.sG }
  let v := { v with dG := if v.tmp ≥ 0 then v.tmp else 0 }
  let v := { v with tmp := v.dB - v.sB }
  { v with dB := if v.tmp ≥ 0 then v.tmp else 0 }

/-- The macro `BLEND_MULT(sR, sG, sB, sA, dR, dG, dB, dA)`:
`dR = (dR && sR) ? ((dR * sR) + 255) >> 8 : 0;` and the same for G and B. -/
def BLEND_MULT (v : BlendVars) : BlendVars :=
  let v := { v with dR := if v.dR ≠ 0 ∧ v.sR ≠ 0 then ((v.dR * v.sR) + 255) >>> (8 : Nat) else 0 }
  let v := { v with dG := if v.dG ≠ 0 ∧ v.sG ≠ 0 then ((v.dG * v.sG) + 255) >>> (8 : Nat) else 0 }
  { v with dB := if v.dB ≠ 0 ∧ v.sB ≠ 0 then ((v.dB * v.sB) + 255) >>> (8 : Nat) else 0 }

/-- The macro `BLEND_MIN(sR, sG, sB, sA, dR, dG, dB, dA)`:
`if (sR < dR) { dR = sR; }` and the same for G and B. -/
def BLEND_MIN (v : BlendVars) : BlendVars :=
  let v := if v.sR < v.dR then { v with dR := v.sR } else v
  let v := if v.sG < v.dG then { v with dG := v.sG } else v
  if v.sB < v.dB then { v with dB := v.sB } else v

/-- The macro `BLEND_MAX(sR, sG, sB, sA, dR, dG, dB, dA)`:
`if (sR > dR) { dR = sR; }` and the same for G and B. -/
def BLEND_MAX (v : BlendVars) : BlendVars :=
  let v := if v.sR > v.dR then { v with dR := v.sR } else v
  let v := if v.sG > v.dG then { v with dG := v.sG } else v
  if v.sB > v.dB then { v with dB := v.sB } else v

/-- A component value of an 8-bit channel. -/
def channel (c : Int) : Prop := 0 ≤ c ∧ c ≤ 255

instance channel_decidable (c : Int) : Decidable (channel c) := by
  unfold channel; infer_instance

/-- All four source and all four destination components are 8-bit channel values. -/
def channels_ok (v : BlendVars) : Prop :=
  channel v.sR ∧ channel v.sG ∧ channel v.sB ∧ channel v.sA ∧
  channel v.dR ∧ channel v.dG ∧ channel v.dB ∧ channel v.dA

instance channels_ok_decidable (v : BlendVars) : Decidable (channels_ok v) := by
  unfold channels_ok; infer_instance

/-- The pixels of the ADD scenario: source `(255,0,0,255)`, destination `(0,255,0,255)`. -/
def add_scenario : BlendVars := ⟨0, 255, 0, 0, 255, 0, 255, 0, 255⟩

/-- A pair of pixels that exercises saturation, flooring and rounding in every colour channel. -/
def sample_pixels : BlendVars := ⟨0, 200, 128, 1, 9, 100, 128, 0, 77⟩

/-- The macro `BLEND_RGBA_ADD(tmp, sR, sG, sB, sA, dR, dG, dB, dA)`: the four
statement pairs `tmp = dC + sC; dC = (tmp <= 255 ? tmp : 255);` for R, G, B, A. -/
def BLEND_RGBA_ADD (v : BlendVars) : BlendVars :=
  let v := { v with tmp := v.dR + v.sR }
  let v := { v with dR := if v.tmp ≤ 255 then v.tmp else 255 }
  let v := { v with tmp := v.dG + v.sG }
  let v := { v with dG := if v.tmp ≤ 255 then v.tmp else 255 }
  let v := { v with tmp := v.dB + v.sB }
  let v := { v with dB := if v.tmp ≤ 255 then v.tmp else 255 }
  let v := { v with tmp := v.dA + v.sA }
  { v with dA := if v.tmp ≤ 255 then v.tmp else 255 }

/-- The macro `BLEND_RGBA_SUB(tmp, sR, sG, sB, sA, dR, dG, dB, dA)`:
`tmp = dC - sC; dC = (tmp >= 0 ? tmp : 0);` for R, G, B, A. -/
def BLEND_RGBA_SUB (v : BlendVars) : BlendVars :=
  let v := { v with tmp := v.dR - v.sR }
  let v := { v with dR := if v.tmp ≥ 0 then v.tmp else 0 }
  let v := { v with tmp := v.dG - v.sG }
  let v := { v with dG := if v.tmp ≥ 0 then v.tmp else 0 }
  let v := { v with tmp := v.dB - v.sB }
  let v := { v with dB := if v.tmp ≥ 0 then v.tmp else 0 }
  let v := { v with tmp := v.dA - v.sA }
  { v with dA := if v.tmp ≥ 0 then v.tmp else 0 }

/-- The macro `BLEND_RGBA_MULT(sR, sG, sB, sA, dR, dG, dB, dA)`:
`dC = (dC && sC) ? ((dC * sC) + 255) >> 8 : 0;` for R, G, B, A. -/
def BLEND_RGBA_MULT (v : BlendVars) : BlendVars :=
  let v := { v with dR := if v.dR ≠ 0 ∧ v.sR ≠ 0 then ((v.dR * v.sR) + 255) >>> (8 : Nat) else 0 }
  let v := { v with dG := if v.dG ≠ 0 ∧ v.sG ≠ 0 then ((v.dG * v.sG) + 255) >>> (8 : Nat) else 0 }
  let v := { v with dB := if v.dB ≠ 0 ∧ v.sB ≠ 0 then ((v.dB * v.sB) + 255) >>> (8 : Nat) else 0 }
  { v with dA := if v.dA ≠ 0 ∧ v.sA ≠ 0 then ((v.dA * v.sA) + 255) >>> (8 : Nat) else 0 }

/-- The macro `BLEND_RGBA_MIN(sR, sG, sB, sA, dR, dG, dB, dA)`:
`if (sC < dC) { dC = sC; }` for R, G, B, A. -/
def BLEND_RGBA_MIN (v : BlendVars) : BlendVars :=
  let v := if v.sR < v.dR then { v with dR := v.sR } else v
  let v := if v.sG < v.dG then { v with dG := v.sG } else v
  let v := if v.sB < v.dB then { v with dB := v.sB } else v
  if v.sA < v.dA then { v with dA := v.sA } else v

/-- The macro `BLEND_RGBA_MAX(sR, sG, sB, sA, dR, dG, dB, dA)`:
`if (sC > dC) { dC = sC; }` for R, G, B, A. -/
def BLEND_RGBA_MAX (v : BlendVars) : BlendVars :=
  let v := if v.sR > v.dR then { v with dR := v.sR } else v
  let v := if v.sG > v.dG then { v with dG := v.sG } else v
  let v := if v.sB > v.dB then { v with dB := v.sB } else v
  if v.sA > v.dA then { v with dA := v.sA } else v

/-- The alternative of `ALPHA_BLEND_COMP` compiled when `(-1 >> 1) < 0`, that is
when a right shift preserves the sign:
`((((sC - dC) * sA + sC) >> 8) + dC)`. -/
def ALPHA_BLEND_COMP_signed (sC dC sA : Int) : Int :=
  (((sC - dC) * sA + sC) >>> (8 : Nat)) + dC

/-- The operand `(dC << 8) + (sC - dC) * sA + sC` of the right shift in the
general alternative of `ALPHA_BLEND_COMP`; `dC << 8` is `dC * 2 ^ 8`. -/
def ALPHA_BLEND_COMP_general_operand (sC dC sA : Int) : Int :=
  (dC * 2 ^ 8) + (sC - dC) * sA + sC

/-- The alternative of `ALPHA_BLEND_COMP` compiled otherwise:
`(((dC << 8) + (sC - dC) * sA + sC) >> 8)`.  The right shift is taken as the
floor of the division by 256, which is what every right shift does on a
non-negative operand. -/
def ALPHA_BLEND_COMP_general (sC dC sA : Int) : Int :=
  (ALPHA_BLEND_COMP_general_operand sC dC sA) >>> (8 : Nat)

/-- The macro `ALPHA_BLEND_COMP(sC, dC, sA)`; `sign_preserved` is the value of the
preprocessor test `(-1 >> 1) < 0` that selects the alternative. -/
def ALPHA_BLEND_COMP (sign_preserved : Bool) (sC dC sA : Int) : Int :=
  if sign_preserved then ALPHA_BLEND_COMP_signed sC dC sA
  else ALPHA_BLEND_COMP_general sC dC sA

/-- The macro `ALPHA_BLEND(sR, sG, sB, sA, dR, dG, dB, dA)` of the `#if 1` branch:
`if (dA) { dR = ALPHA_BLEND_COMP(sR, dR, sA); dG = ...; dB = ...;
dA = sA + dA - ((sA * dA) / 255); } else { dR = sR; dG = sG; dB = sB; dA = sA; }` -/
def ALPHA_BLEND (sign_preserved : Bool) (v : BlendVars) : BlendVars :=
  if v.dA ≠ 0 then
    let v := { v with dR := ALPHA_BLEND_COMP sign_preserved v.sR v.dR v.sA }
    let v := { v with dG := ALPHA_BLEND_COMP sign_preserved v.sG v.dG v.sA }
    let v := { v with dB := ALPHA_BLEND_COMP sign_preserved v.sB v.dB v.sA }
    { v with dA := v.sA + v.dA - Int.tdiv (v.sA * v.dA) 255 }
  else
    let v := { v with dR := v.sR }
    let v := { v with dG := v.sG }
    let v := { v with dB := v.sB }
    { v with dA := v.sA }

/-- The macro `ALPHA_BLEND_PREMULTIPLIED_COMP(sC, dC, sA)`:
`(sC + dC - ((dC + 1) * sA >> 8))`. -/
def ALPHA_BLEND_PREMULTIPLIED_COMP (sC dC sA : Int) : Int :=
  sC + dC - (((dC + 1) * sA) >>> (8 : Nat))

/-- The conversion of an `int` value to `Uint8` when it is assigned to a component:
reduction modulo 256.  The components are `Uint8` variables where the macros are
used: `GET_PIXELVALS` passes their addresses to `SDL_GetRGBA`. -/
def store_Uint8 (x : Int) : Int := x % 256

/-- The macro `ALPHA_BLEND_PREMULTIPLIED(tmp, sR, sG, sB, sA, dR, dG, dB, dA)`:
the four assignments `dC = ALPHA_BLEND_PREMULTIPLIED_COMP(sC, dC, sA)` for R, G,
B and last `dA = ALPHA_BLEND_PREMULTIPLIED_COMP(sA, dA, sA)`.  The value of the
expression can exceed 255 on components in 0..255, so the conversion of the
assignment is part of the macro's effect. -/
def ALPHA_BLEND_PREMULTIPLIED (v : BlendVars) : BlendVars :=
  let v := { v with dR := store_Uint8 (ALPHA_BLEND_PREMULTIPLIED_COMP v.sR v.dR v.sA) }
  let v := { v with dG := store_Uint8 (ALPHA_BLEND_PREMULTIPLIED_COMP v.sG v.dG v.sA) }
  let v := { v with dB := store_Uint8 (ALPHA_BLEND_PREMULTIPLIED_COMP v.sB v.dB v.sA) }
  { v with dA := store_Uint8 (ALPHA_BLEND_PREMULTIPLIED_COMP v.sA v.dA v.sA) }

/-- The pixels of the ALPHA scenario: source `(100,100,100,128)`, destination `(0,0,0,255)`. -/
def alpha_scenario : BlendVars := ⟨0, 100, 100, 100, 128, 0, 0, 0, 255⟩

/-! ## surface.h: the unrolled row loop -/

/-- The loop test `while (--n > 0)` of `LOOP_UNROLLED4`, reached after the last copy
of `code` in the body: `n` is decremented, and when the new value is positive the
body `code; code; code; code;` runs from its top and the test is reached again.
The result is the final state and the final value of `n`. -/
def loop_test {σ : Type} (code : σ → σ) (s : σ) (n : Int) : σ × Int :=
  if _h : n - 1 > 0 then loop_test code (code (code (code (code s)))) (n - 1)
  else (s, n - 1)
termination_by (n - 1).toNat
decreasing_by omega

/-- The macro `LOOP_UNROLLED4(code, n, width)`:
`n = (width + 3) / 4; switch (width & 3) { case 0: do { code; case 3: code;
case 2: code; case 1: code; } while (--n > 0); }`.
`code` is a statement that does not assign to `n` or `width`, a function on the
state of the other variables.  The switch jumps to the label of `width & 3`, so
4, 3, 2 or 1 copies of `code` run before the loop test is first reached. -/
def LOOP_UNROLLED4 {σ : Type} (code : σ → σ) (width : Int) (s : σ) : σ × Int :=
  let n := Int.tdiv (width + 3) 4
  if Int.land width 3 = 0 then loop_test code (code (code (code (code s)))) n
  else if Int.land width 3 = 3 then loop_test code (code (code (code s))) n
  else if Int.land width 3 = 2 then loop_test code (code (code s)) n
  else if Int.land width 3 = 1 then loop_test code (code s) n
  else (s, n)

/-- A loop body that handles the pixel under a cursor and advances the cursor: the
state is the cursor and the list of the pixels handled so far. -/
def visit (p : Nat × List Nat) : Nat × List Nat := (p.1 + 1, p.2 ++ [p.1])

/-! ## surface.h: pixel packing and byte offsets -/

/-- Modelled from the spec: the channel layout of a pixel format.  `SDL_PixelFormat` is
declared in SDL's headers, which are not among the sources; the macros read its
fields `Rloss`, `Gloss`, `Bloss`, `Aloss` and `Rshift`, `Gshift`, `Bshift`,
`Ashift` (each a `Uint8`).  A channel keeps its `8 - loss` high bits and is placed
at bit `shift`; the placement is "within 16/24/32-bit words", SDL keeping each
channel as a 32-bit mask. -/
structure SDL_PixelFormat where
  Rloss : Nat
  Gloss : Nat
  Bloss : Nat
  Aloss : Nat
  Rshift : Nat
  Gshift : Nat
  Bshift : Nat
  Ashift : Nat
  within32 : Rshift + (8 - Rloss) ≤ 32 ∧ Gshift + (8 - Gloss) ≤ 32 ∧
    Bshift + (8 - Bloss) ≤ 32 ∧ Ashift + (8 - Aloss) ≤ 32

/-- The value of `SDL_BYTEORDER`, which `surface.h` compares with `SDL_LIL_ENDIAN`. -/
inductive SDL_BYTEORDER where
  | SDL_LIL_ENDIAN
  | SDL_BIG_ENDIAN
deriving DecidableEq

/-- The read `*((Uint16 *)(p))` of two bytes in the byte order of the machine; `m i` is
the byte at `p + i`. -/
def load_Uint16 (e : SDL_BYTEORDER) (m : Nat → Nat) : Nat :=
  match e with
  | .SDL_LIL_ENDIAN => m 0 + (m 1 <<< 8)
  | .SDL_BIG_ENDIAN => m 1 + (m 0 <<< 8)

/-- The read `*((Uint32 *)(p))` of four bytes in the byte order of the machine. -/
def load_Uint32 (e : SDL_BYTEORDER) (m : Nat → Nat) : Nat :=
  match e with
  | .SDL_LIL_ENDIAN => m 0 + (m 1 <<< 8) + (m 2 <<< 16) + (m 3 <<< 24)
  | .SDL_BIG_ENDIAN => m 3 + (m 2 <<< 8) + (m 1 <<< 16) + (m 0 <<< 24)

/-- The write `*((Uint16 *)(p)) = v`: the value is converted to 16 bits and its two
bytes replace the bytes at `p` and `p + 1`. -/
def store_Uint16 (e : SDL_BYTEORDER) (m : Nat → Nat) (v : Nat) : Nat → Nat :=
  fun i =>
    if i < 2 then
      match e with
      | .SDL_LIL_ENDIAN => (v >>> (8 * i)) % 256
      | .SDL_BIG_ENDIAN => (v >>> (8 * (1 - i))) % 256
    else m i

/-- The write `*((Uint32 *)(p)) = v`: the value is converted to 32 bits and its four
bytes replace the bytes at `p` to `p + 3`. -/
def store_Uint32 (e : SDL_BYTEORDER) (m : Nat → Nat) (v : Nat) : Nat → Nat :=
  fun i =>
    if i < 4 then
      match e with
      | .SDL_LIL_ENDIAN => (v >>> (8 * i)) % 256
      | .SDL_BIG_ENDIAN => (v >>> (8 * (3 - i))) % 256
    else m i

/-- The expression that `CREATE_PIXEL` stores:
`((r >> ft->Rloss) << ft->Rshift) | ((g >> ft->Gloss) << ft->Gshift) |
((b >> ft->Bloss) << ft->Bshift) | ((a >> ft->Aloss) << ft->Ashift)`. -/
def pixel_bits (r g b a : Nat) (ft : SDL_PixelFormat) : Nat :=
  ((r >>> ft.Rloss) <<< ft.Rshift) ||| ((g >>> ft.Gloss) <<< ft.Gshift) |||
    ((b >>> ft.Bloss) <<< ft.Bshift) ||| ((a >>> ft.Aloss) <<< ft.Ashift)

/-- The macro `CREATE_PIXEL(buf, r, g, b, a, bp, ft)`: `switch (bp)` with `case 2:` a
`Uint16` store of the packed value at `buf`, `case 4:` a `Uint32` store, and no
other case.  The result is the memory at `buf` afterwards. -/
def CREATE_PIXEL (e : SDL_BYTEORDER) (buf : Nat → Nat) (r g b a : Nat) (bp : Int)
    (ft : SDL_PixelFormat) : Nat → Nat :=
  if bp = 2 then store_Uint16 e buf (pixel_bits r g b a ft)
  else if bp = 4 then store_Uint32 e buf (pixel_bits r g b a ft)
  else buf

/-- The macro `GET_PIXEL_24(b)`: `(b[0] + (b[1] << 8) + (b[2] << 16))` when
`SDL_BYTEORDER == SDL_LIL_ENDIAN`, `(b[2] + (b[1] << 8) + (b[0] << 16))` otherwise. -/
def GET_PIXEL_24 (e : SDL_BYTEORDER) (b : Nat → Nat) : Nat :=
  match e with
  | .SDL_LIL_ENDIAN => b 0 + (b 1 <<< 8) + (b 2 <<< 16)
  | .SDL_BIG_ENDIAN => b 2 + (b 1 <<< 8) + (b 0 <<< 16)

/-- The macro `GET_PIXEL(pxl, bpp, source)`: `switch (bpp)` with `case 2:` a `Uint16`
read at `source`, `case 4:` a `Uint32` read, and `default:` `GET_PIXEL_24` of the
bytes at `source`.  The result is the value assigned to `pxl`. -/
def GET_PIXEL (e : SDL_BYTEORDER) (bpp : Int) (source : Nat → Nat) : Nat :=
  if bpp = 2 then load_Uint16 e source
  else if bpp = 4 then load_Uint32 e source
  else GET_PIXEL_24 e source

/-- The conditional expression that `SET_OFFSETS_24` evaluates for each of the three
channels: `(shift == 0 ? 0 : shift == 8 ? 1 : 2)` on a little-endian machine,
`(shift == 0 ? 2 : shift == 8 ? 1 : 0)` otherwise. -/
def offset_24 (e : SDL_BYTEORDER) (shift : Nat) : Nat :=
  match e with
  | .SDL_LIL_ENDIAN => if shift = 0 then 0 else if shift = 8 then 1 else 2
  | .SDL_BIG_ENDIAN => if shift = 0 then 2 else if shift = 8 then 1 else 0

/-- The conditional expression that `SET_OFFSETS_32` evaluates for each of the three
channels: `(shift == 0 ? 0 : shift == 8 ? 1 : shift == 16 ? 2 : 3)` on a
little-endian machine, `(shift == 0 ? 3 : shift == 8 ? 2 : shift == 16 ? 1 : 0)`
otherwise. -/
def offset_32 (e : SDL_BYTEORDER) (shift : Nat) : Nat :=
  match e with
  | .SDL_LIL_ENDIAN => if shift = 0 then 0 else if shift = 8 then 1 else if shift = 16 then 2 else 3
  | .SDL_BIG_ENDIAN => if shift = 0 then 3 else if shift = 8 then 2 else if shift = 16 then 1 else 0

/-- The macro `SET_OFFSETS_24(or, og, ob, fmt)`: the values assigned to `or`, `og`, `ob`
from `fmt->Rshift`, `fmt->Gshift`, `fmt->Bshift`. -/
def SET_OFFSETS_24 (e : SDL_BYTEORDER) (fmt : SDL_PixelFormat) : Nat × Nat × Nat :=
  (offset_24 e fmt.Rshift, offset_24 e fmt.Gshift, offset_24 e fmt.Bshift)

/-- The macro `SET_OFFSETS_32(or, og, ob, fmt)`: the values assigned to `or`, `og`, `ob`
from `fmt->Rshift`, `fmt->Gshift`, `fmt->Bshift`. -/
def SET_OFFSETS_32 (e : SDL_BYTEORDER) (fmt : SDL_PixelFormat) : Nat × Nat × Nat :=
  (offset_32 e fmt.Rshift, offset_32 e fmt.Gshift, offset_32 e fmt.Bshift)

/-- Whether the channel fields `[s1, s1 + 8 - l1)` and `[s2, s2 + 8 - l2)` have no bit in
common. -/
def fields_disjoint (s1 l1 s2 l2 : Nat) : Prop :=
  8 ≤ l1 ∨ 8 ≤ l2 ∨ s1 + (8 - l1) ≤ s2 ∨ s2 + (8 - l2) ≤ s1

instance fields_disjoint_decidable (s1 l1 s2 l2 : Nat) : Decidable (fields_disjoint s1 l1 s2 l2) := by
  unfold fields_disjoint; infer_instance

/-- The four channel fields of a format are pairwise disjoint. -/
def format_disjoint (ft : SDL_PixelFormat) : Prop :=
  fields_disjoint ft.Rshift ft.Rloss ft.Gshift ft.Gloss ∧
  fields_disjoint ft.Rshift ft.Rloss ft.Bshift ft.Bloss ∧
  fields_disjoint ft.Rshift ft.Rloss ft.Ashift ft.Aloss ∧
  fields_disjoint ft.Gshift ft.Gloss ft.Bshift ft.Bloss ∧
  fields_disjoint ft.Gshift ft.Gloss ft.Ashift ft.Aloss ∧
  fields_disjoint ft.Bshift ft.Bloss ft.Ashift ft.Aloss

instance format_disjoint_decidable (ft : SDL_PixelFormat) : Decidable (format_disjoint ft) := by
  unfold format_disjoint; infer_instance

/-- All four channel fields of a format lie in the low 16 bits. -/
def format_within16 (ft : SDL_PixelFormat) : Prop :=
  ft.Rshift + (8 - ft.Rloss) ≤ 16 ∧ ft.Gshift + (8 - ft.Gloss) ≤ 16 ∧
  ft.Bshift + (8 - ft.Bloss) ≤ 16 ∧ ft.Ashift + (8 - ft.Aloss) ≤ 16

instance format_within16_decidable (ft : SDL_PixelFormat) : Decidable (format_within16 ft) := by
  unfold format_within16; infer_instance

/-- The 32-bit format ARGB8888: no loss, blue at bit 0, green at 8, red at 16, alpha at 24. -/
def argb8888 : SDL_PixelFormat := ⟨0, 0, 0, 0, 16, 8, 0, 24, by decide⟩

/-- The 16-bit format RGB565 without alpha: red 5 bits at 11, green 6 bits at 5, blue 5
bits at 0. -/
def rgb565 : SDL_PixelFormat := ⟨3, 2, 3, 8, 11, 5, 0, 0, by decide⟩

/-- The 16-bit format ARGB4444: four bits a channel, blue at 0, green at 4, red at 8,
alpha at 12. -/
def argb4444 : SDL_PixelFormat := ⟨4, 4, 4, 4, 8, 4, 0, 12, by decide⟩

/-- Four bytes of memory, `0x11 0x22 0x33 0x44`, followed by zeros. -/
def sample_bytes : Nat → Nat := fun i => [17, 34, 51, 68].getD i 0

/-! ### Auxiliary facts on words -/

theorem BITMASK_W_LEN_pos (t : Target) : 0 < BITMASK_W_LEN t := by
  obtain ⟨k, hk⟩ := t.word_pow2
  unfold BITMASK_W_LEN
  rw [hk]
  exact Nat.two_pow_pos k

theorem land_pow2_mask (x : Int) (k : Nat) (hx : 0 ≤ x) :
    Int.land x (((2 ^ k : Nat) : Int) - 1) = x % ((2 ^ k : Nat) : Int) := by
  obtain ⟨a, rfl⟩ := Int.eq_ofNat_of_zero_le hx
  have h1 : ((2 ^ k : Nat) : Int) - 1 = ((2 ^ k - 1 : Nat) : Int) := by
    have : 1 ≤ 2 ^ k := Nat.one_le_two_pow
    omega
  rw [h1]
  show ((a &&& (2 ^ k - 1) : Nat) : Int) = _
  rw [Nat.and_pow_two_sub_one_eq_mod]
  norm_cast

theorem bit_offset_eq_mod (t : Target) (x : Int) (hx : 0 ≤ x) :
    bit_offset t x = x % (BITMASK_W_LEN t : Int) := by
  obtain ⟨k, hk⟩ := t.word_pow2
  unfold bit_offset BITMASK_W_MASK BITMASK_W_LEN
  rw [hk]
  exact land_pow2_mask x k hx

theorem bit_offset_bounds (t : Target) (x : Int) (hx : 0 ≤ x) :
    0 ≤ bit_offset t x ∧ bit_offset t x < (BITMASK_W_LEN t : Int) := by
  rw [bit_offset_eq_mod t x hx]
  have hL : (0 : Int) < (BITMASK_W_LEN t : Int) := by exact_mod_cast BITMASK_W_LEN_pos t
  exact ⟨Int.emod_nonneg _ (ne_of_gt hL), Int.emod_lt_of_pos _ hL⟩

theorem BITMASK_N_eq (t : Target) (n : Int) (h : n.toNat < BITMASK_W_LEN t) :
    BITMASK_N t n = 2 ^ n.toNat := by
  unfold BITMASK_N
  rw [Nat.one_shiftLeft]
  exact Nat.mod_eq_of_lt (Nat.pow_lt_pow_right (by decide) h)

theorem and_two_pow_ne_zero (wd i : Nat) : wd &&& 2 ^ i ≠ 0 ↔ wd.testBit i = true := by
  rw [Nat.and_two_pow]
  cases wd.testBit i <;> simp

theorem word_index_bounds (t : Target) (m : bitmask_t) (x y : Int)
    (hx : 0 ≤ x ∧ x < m.w) (hy : 0 ≤ y ∧ y < m.h) :
    0 ≤ word_index t m x y ∧ word_index t m x y < storage_words t m.w m.h := by
  have hL : (0 : Int) < (BITMASK_W_LEN t : Int) := by exact_mod_cast BITMASK_W_LEN_pos t
  unfold word_index storage_words
  have hq0 : 0 ≤ x / (BITMASK_W_LEN t : Int) := Int.ediv_nonneg hx.1 (le_of_lt hL)
  have hq1 : x / (BITMASK_W_LEN t : Int) + 1 ≤
      (m.w + (BITMASK_W_LEN t : Int) - 1) / (BITMASK_W_LEN t : Int) := by
    have h1 : x / (BITMASK_W_LEN t : Int) + 1 = (x + (BITMASK_W_LEN t : Int)) / (BITMASK_W_LEN t : Int) := by
      rw [Int.add_ediv_of_dvd_right (dvd_refl _), Int.ediv_self (ne_of_gt hL)]
    rw [h1]
    exact Int.ediv_le_ediv hL (by omega)
  have hh : 0 ≤ m.h := le_trans hy.1 (le_of_lt hy.2)
  constructor
  · have := mul_nonneg hq0 hh
    omega
  · have h2 : (x / (BITMASK_W_LEN t : Int) + 1) * m.h ≤
        (m.w + (BITMASK_W_LEN t : Int) - 1) / (BITMASK_W_LEN t : Int) * m.h :=
      mul_le_mul_of_nonneg_right hq1 hh
    have h3 : (x / (BITMASK_W_LEN t : Int) + 1) * m.h = x / (BITMASK_W_LEN t : Int) * m.h + m.h := by ring
    omega

theorem word_at_some (m : bitmask_t) (i : Int) (h0 : 0 ≤ i) (h1 : i < (m.bits.length : Int)) :
    ∃ wd, word_at m i = some wd ∧ m.bits[i.toNat]? = some wd := by
  have hlt : i.toNat < m.bits.length := by omega
  refine ⟨m.bits[i.toNat], ?_, ?_⟩
  · unfold word_at
    rw [if_pos h0]
    exact List.getElem?_eq_getElem hlt
  · exact List.getElem?_eq_getElem hlt


theorem word_at_set_self (m : bitmask_t) (i : Int) (nw : Nat) (h0 : 0 ≤ i)
    (h1 : i < (m.bits.length : Int)) :
    word_at { m with bits := List.set m.bits i.toNat nw } i = some nw := by
  have hlt : i.toNat < m.bits.length := by omega
  unfold word_at
  rw [if_pos h0]
  exact List.getElem?_set_self hlt

theorem word_at_set_ne (m : bitmask_t) (i j : Int) (nw : Nat) (hi : 0 ≤ i) (hj : 0 ≤ j)
    (hne : i ≠ j) :
    word_at { m with bits := List.set m.bits i.toNat nw } j = word_at m j := by
  have hne2 : i.toNat ≠ j.toNat := by omega
  unfold word_at
  rw [if_pos hj, if_pos hj]
  exact List.getElem?_set_ne hne2

theorem testBit_set (wd n j : Nat) : (wd ||| 2 ^ n).testBit j = (wd.testBit j || decide (n = j)) := by
  rw [Nat.testBit_or, Nat.testBit_two_pow]

theorem testBit_clear (t : Target) (wd n j : Nat) :
    (wd &&& BITMASK_W_not t (2 ^ n)).testBit j =
      (wd.testBit j && (decide (j < BITMASK_W_LEN t) ^^ decide (n = j))) := by
  unfold BITMASK_W_not
  rw [Nat.testBit_and, Nat.testBit_xor, Nat.testBit_two_pow_sub_one, Nat.testBit_two_pow]

theorem coords_injective (t : Target) (m : bitmask_t) (x y x' y' : Int)
    (hx : 0 ≤ x ∧ x < m.w) (hy : 0 ≤ y ∧ y < m.h)
    (hx' : 0 ≤ x' ∧ x' < m.w) (hy' : 0 ≤ y' ∧ y' < m.h)
    (hi : word_index t m x' y' = word_index t m x y)
    (ho : bit_offset t x' = bit_offset t x) : x' = x ∧ y' = y := by
  have hL : (0 : Int) < (BITMASK_W_LEN t : Int) := by exact_mod_cast BITMASK_W_LEN_pos t
  rw [bit_offset_eq_mod t x hx.1, bit_offset_eq_mod t x' hx'.1] at ho
  unfold word_index at hi
  have hq : x' / (BITMASK_W_LEN t : Int) = x / (BITMASK_W_LEN t : Int) := by
    rcases lt_trichotomy (x' / (BITMASK_W_LEN t : Int)) (x / (BITMASK_W_LEN t : Int)) with h | h | h
    · exfalso
      have h1 : (x' / (BITMASK_W_LEN t : Int) + 1) * m.h ≤ x / (BITMASK_W_LEN t : Int) * m.h :=
        mul_le_mul_of_nonneg_right (by omega) (by omega)
      have h2 : (x' / (BITMASK_W_LEN t : Int) + 1) * m.h
          = x' / (BITMASK_W_LEN t : Int) * m.h + m.h := by ring
      omega
    · exact h
    · exfalso
      have h1 : (x / (BITMASK_W_LEN t : Int) + 1) * m.h ≤ x' / (BITMASK_W_LEN t : Int) * m.h :=
        mul_le_mul_of_nonneg_right (by omega) (by omega)
      have h2 : (x / (BITMASK_W_LEN t : Int) + 1) * m.h
          = x / (BITMASK_W_LEN t : Int) * m.h + m.h := by ring
      omega
  constructor
  · have e1 := Int.ediv_add_emod x (BITMASK_W_LEN t : Int)
    have e2 := Int.ediv_add_emod x' (BITMASK_W_LEN t : Int)
    rw [hq, ho] at e2
    omega
  · rw [hq] at hi
    omega

theorem bit_offset_toNat_lt (t : Target) (x : Int) (hx : 0 ≤ x) :
    (bit_offset t x).toNat < BITMASK_W_LEN t := by
  have := bit_offset_bounds t x hx
  omega

theorem getbit_updated_same (t : Target) (m : bitmask_t) (x y : Int) (nw : Nat)
    (h0 : 0 ≤ word_index t m x y) (h1 : word_index t m x y < (m.bits.length : Int)) :
    bitmask_getbit t { m with bits := List.set m.bits (word_index t m x y).toNat nw } x y
      = some (if nw &&& BITMASK_N t (bit_offset t x) ≠ 0 then 1 else 0) := by
  unfold bitmask_getbit
  have hidx : word_index t { m with bits := List.set m.bits (word_index t m x y).toNat nw } x y
      = word_index t m x y := rfl
  rw [hidx, word_at_set_self m _ nw h0 h1]
  rfl

theorem getbit_updated_other (t : Target) (m : bitmask_t) (x y x' y' : Int) (wd nw : Nat)
    (hlen : (m.bits.length : Int) = storage_words t m.w m.h)
    (hx : 0 ≤ x ∧ x < m.w) (hy : 0 ≤ y ∧ y < m.h)
    (hx' : 0 ≤ x' ∧ x' < m.w) (hy' : 0 ≤ y' ∧ y' < m.h)
    (hne : (x', y') ≠ (x, y))
    (hwd : word_at m (word_index t m x y) = some wd)
    (hbits : ∀ j, j < BITMASK_W_LEN t → j ≠ (bit_offset t x).toNat →
      nw.testBit j = wd.testBit j) :
    bitmask_getbit t { m with bits := List.set m.bits (word_index t m x y).toNat nw } x' y'
      = bitmask_getbit t m x' y' := by
  have hb := word_index_bounds t m x y hx hy
  have hb' := word_index_bounds t m x' y' hx' hy'
  unfold bitmask_getbit
  have hidx : word_index t { m with bits := List.set m.bits (word_index t m x y).toNat nw } x' y'
      = word_index t m x' y' := rfl
  rw [hidx]
  by_cases hi : word_index t m x' y' = word_index t m x y
  · have ho : bit_offset t x' ≠ bit_offset t x := by
      intro ho
      obtain ⟨e1, e2⟩ := coords_injective t m x y x' y' hx hy hx' hy' hi ho
      exact hne (by rw [e1, e2])
    have hlt' := bit_offset_toNat_lt t x' hx'.1
    have hn0 := (bit_offset_bounds t x hx.1).1
    have hn0' := (bit_offset_bounds t x' hx'.1).1
    have hj : (bit_offset t x').toNat ≠ (bit_offset t x).toNat := by omega
    rw [hi, word_at_set_self m _ nw hb.1 (by omega), hwd]
    simp only [Option.map_some']
    rw [BITMASK_N_eq t _ hlt']
    have e1 := and_two_pow_ne_zero nw (bit_offset t x').toNat
    have e2 := and_two_pow_ne_zero wd (bit_offset t x').toNat
    rw [hbits _ hlt' hj] at e1
    by_cases hw : wd.testBit (bit_offset t x').toNat = true
    · rw [if_pos (e1.2 hw), if_pos (e2.2 hw)]
    · rw [if_neg (fun h => hw (e1.1 h)), if_neg (fun h => hw (e2.1 h))]
  · rw [word_at_set_ne m _ _ nw hb.1 hb'.1 (fun h => hi h.symm)]

theorem storage_words_eq_ceil (t : Target) (w h : Int) :
    storage_words t w h = ⌈(w : ℚ) / (BITMASK_W_LEN t : ℚ)⌉ * h := by
  have hLi : (0 : Int) < (BITMASK_W_LEN t : Int) := by exact_mod_cast BITMASK_W_LEN_pos t
  have h1 : ⌈(w : ℚ) / (BITMASK_W_LEN t : ℚ)⌉ = -((-w) / (BITMASK_W_LEN t : Int)) := by
    have := Rat.floor_intCast_div_natCast (-w) (BITMASK_W_LEN t)
    rw [← this, Int.cast_neg, neg_div, Int.floor_neg, neg_neg]
  have r0 := Int.emod_nonneg (-w) (ne_of_gt hLi)
  have r1 := Int.emod_lt_of_pos (-w) hLi
  have e := Int.ediv_add_emod (-w) (BITMASK_W_LEN t : Int)
  have key : w + (BITMASK_W_LEN t : Int) - 1 =
      ((BITMASK_W_LEN t : Int) - 1 - (-w) % (BITMASK_W_LEN t : Int)) +
        (BITMASK_W_LEN t : Int) * (-((-w) / (BITMASK_W_LEN t : Int))) := by
    have : (BITMASK_W_LEN t : Int) * (-((-w) / (BITMASK_W_LEN t : Int))) =
        -((BITMASK_W_LEN t : Int) * ((-w) / (BITMASK_W_LEN t : Int))) := by ring
    omega
  unfold storage_words
  rw [h1, key, Int.add_mul_ediv_left _ _ (ne_of_gt hLi),
    Int.ediv_eq_zero_of_lt (by omega) (by omega)]
  simp

/-! ## The accessors of bitmask.h -/

/-- Claim C1: on a mask whose storage has `ceil(w / BITMASK_W_LEN) * h` words, for
every coordinate with `0 <= x < w` and `0 <= y < h`, `bitmask_setbit(m, x, y)` is
defined and `bitmask_getbit` of the resulting mask at `(x, y)` returns exactly 1,
whatever the word held before. -/
theorem getbit_after_setbit (t : Target) (m : bitmask_t) (x y : Int)
    (hlen : (m.bits.length : Int) = storage_words t m.w m.h)
    (hx : 0 ≤ x ∧ x < m.w) (hy : 0 ≤ y ∧ y < m.h) :
    ∃ m1, bitmask_setbit t m x y = some m1 ∧ bitmask_getbit t m1 x y = some 1 := by
  have hb := word_index_bounds t m x y hx hy
  obtain ⟨wd, hwd, -⟩ := word_at_some m (word_index t m x y) hb.1 (by omega)
  refine ⟨_, by unfold bitmask_setbit; rw [hwd]; rfl, ?_⟩
  rw [getbit_updated_same t m x y _ hb.1 (by omega)]
  have hlt := bit_offset_toNat_lt t x hx.1
  rw [BITMASK_N_eq t _ hlt]
  rw [if_pos]
  rw [and_two_pow_ne_zero, testBit_set]
  simp

theorem getbit_after_setbit_witness :
    ((mask70.bits.length : Int) = storage_words lp64 mask70.w mask70.h) ∧
    bitmask_getbit lp64 mask70 68 1 = some 0 ∧
    ∃ m1, bitmask_setbit lp64 mask70 68 1 = some m1 ∧ bitmask_getbit lp64 m1 68 1 = some 1 :=
  ⟨by decide, by decide,
    getbit_after_setbit lp64 mask70 68 1 (by decide) (by decide) (by decide)⟩

/-- Claim C2: on a mask with its storage, for every coordinate with `0 <= x < w` and
`0 <= y < h`, `bitmask_clearbit(m, x, y)` is defined and `bitmask_getbit` of the
resulting mask at `(x, y)` returns 0, whatever the word held before. -/
theorem getbit_after_clearbit (t : Target) (m : bitmask_t) (x y : Int)
    (hlen : (m.bits.length : Int) = storage_words t m.w m.h)
    (hx : 0 ≤ x ∧ x < m.w) (hy : 0 ≤ y ∧ y < m.h) :
    ∃ m1, bitmask_clearbit t m x y = some m1 ∧ bitmask_getbit t m1 x y = some 0 := by
  have hb := word_index_bounds t m x y hx hy
  obtain ⟨wd, hwd, -⟩ := word_at_some m (word_index t m x y) hb.1 (by omega)
  refine ⟨_, by unfold bitmask_clearbit; rw [hwd]; rfl, ?_⟩
  rw [getbit_updated_same t m x y _ hb.1 (by omega)]
  have hlt := bit_offset_toNat_lt t x hx.1
  rw [BITMASK_N_eq t _ hlt]
  rw [if_neg]
  rw [and_two_pow_ne_zero, testBit_clear]
  simp [hlt]

theorem getbit_after_clearbit_witness :
    ((mask70.bits.length : Int) = storage_words lp64 mask70.w mask70.h) ∧
    bitmask_getbit lp64 mask70 69 1 = some 1 ∧
    ∃ m1, bitmask_clearbit lp64 mask70 69 1 = some m1 ∧ bitmask_getbit lp64 m1 69 1 = some 0 :=
  ⟨by decide, by decide,
    getbit_after_clearbit lp64 mask70 69 1 (by decide) (by decide) (by decide)⟩

/-- Claim C3: `bitmask_setbit(m, x, y)` and `bitmask_clearbit(m, x, y)` change only the
bit at `(x, y)`: for in-range `(x, y)` and `(x', y')` with `(x', y') != (x, y)`,
`bitmask_getbit(m, x', y')` is the same before and after the call, and the
fields `w` and `h` are unchanged. -/
theorem setbit_clearbit_frame (t : Target) (m : bitmask_t) (x y x' y' : Int)
    (hlen : (m.bits.length : Int) = storage_words t m.w m.h)
    (hx : 0 ≤ x ∧ x < m.w) (hy : 0 ≤ y ∧ y < m.h)
    (hx' : 0 ≤ x' ∧ x' < m.w) (hy' : 0 ≤ y' ∧ y' < m.h)
    (hne : (x', y') ≠ (x, y)) :
    (∃ m1, bitmask_setbit t m x y = some m1 ∧
        bitmask_getbit t m1 x' y' = bitmask_getbit t m x' y' ∧ m1.w = m.w ∧ m1.h = m.h) ∧
    (∃ m2, bitmask_clearbit t m x y = some m2 ∧
        bitmask_getbit t m2 x' y' = bitmask_getbit t m x' y' ∧ m2.w = m.w ∧ m2.h = m.h) := by
  have hb := word_index_bounds t m x y hx hy
  obtain ⟨wd, hwd, -⟩ := word_at_some m (word_index t m x y) hb.1 (by omega)
  have hlt := bit_offset_toNat_lt t x hx.1
  constructor
  · refine ⟨{ m with
      bits := List.set m.bits (word_index t m x y).toNat (wd ||| BITMASK_N t (bit_offset t x)) },
      by unfold bitmask_setbit; rw [hwd]; rfl, ?_, rfl, rfl⟩
    apply getbit_updated_other t m x y x' y' wd _ hlen hx hy hx' hy' hne hwd
    intro j _ hj
    rw [BITMASK_N_eq t _ hlt, testBit_set]
    simp [Ne.symm hj]
  · refine ⟨{ m with
      bits := List.set m.bits (word_index t m x y).toNat
                (wd &&& BITMASK_W_not t (BITMASK_N t (bit_offset t x))) },
      by unfold bitmask_clearbit; rw [hwd]; rfl, ?_, rfl, rfl⟩
    apply getbit_updated_other t m x y x' y' wd _ hlen hx hy hx' hy' hne hwd
    intro j hjL hj
    rw [BITMASK_N_eq t _ hlt, testBit_clear]
    simp [Ne.symm hj, hjL]

theorem setbit_clearbit_frame_witness :
    ((mask70.bits.length : Int) = storage_words lp64 mask70.w mask70.h) ∧
    (∃ m1, bitmask_setbit lp64 mask70 68 1 = some m1 ∧
        bitmask_getbit lp64 m1 69 1 = bitmask_getbit lp64 mask70 69 1 ∧
        m1.w = mask70.w ∧ m1.h = mask70.h) ∧
    (∃ m2, bitmask_clearbit lp64 mask70 68 1 = some m2 ∧
        bitmask_getbit lp64 m2 69 1 = bitmask_getbit lp64 mask70 69 1 ∧
        m2.w = mask70.w ∧ m2.h = mask70.h) :=
  ⟨by decide,
    setbit_clearbit_frame lp64 mask70 68 1 69 1 (by decide) (by decide) (by decide)
      (by decide) (by decide) (by decide)⟩

/-- Claim C5: for a mask of width `w` and height `h` and every coordinate with
`0 <= x < w` and `0 <= y < h`, the word index `x / BITMASK_W_LEN * h + y` used by
the three accessors is non-negative and strictly less than the storage length
`ceil(w / BITMASK_W_LEN) * h`, so on a mask with that storage each accessor
reads or writes a word of the storage. -/
theorem accessors_in_bounds (t : Target) (m : bitmask_t) (x y : Int)
    (hx : 0 ≤ x ∧ x < m.w) (hy : 0 ≤ y ∧ y < m.h) :
    word_index t m x y = x / (BITMASK_W_LEN t : Int) * m.h + y ∧
    0 ≤ word_index t m x y ∧
    word_index t m x y < storage_words t m.w m.h ∧
    ((m.bits.length : Int) = storage_words t m.w m.h →
      (bitmask_getbit t m x y).isSome = true ∧ (bitmask_setbit t m x y).isSome = true ∧
      (bitmask_clearbit t m x y).isSome = true) := by
  have hb := word_index_bounds t m x y hx hy
  refine ⟨rfl, hb.1, hb.2, ?_⟩
  intro hlen
  obtain ⟨wd, hwd, -⟩ := word_at_some m (word_index t m x y) hb.1 (by omega)
  unfold bitmask_getbit bitmask_setbit bitmask_clearbit
  rw [hwd]
  exact ⟨rfl, rfl, rfl⟩

theorem accessors_in_bounds_witness :
    ((0 : Int) ≤ 69 ∧ (69 : Int) < mask70.w) ∧ ((0 : Int) ≤ 1 ∧ (1 : Int) < mask70.h) ∧
    word_index lp64 mask70 69 1 = 3 ∧ storage_words lp64 mask70.w mask70.h = 4 ∧
    word_index lp64 mask70 69 1 < storage_words lp64 mask70.w mask70.h :=
  ⟨by decide, by decide, by decide, by decide,
    (accessors_in_bounds lp64 mask70 69 1 (by decide) (by decide)).2.2.1⟩

/-! ## The RGB blend macros of surface.h -/

/-- Claim C6: for source and destination components in 0..255, `BLEND_ADD` sets each of
`dR`, `dG`, `dB` to `min(d + s, 255)`; in particular source `(255,0,0,255)` added
onto destination `(0,255,0,255)` gives `(255,255,0,255)`. -/
theorem BLEND_ADD_saturates (v : BlendVars) (hv : channels_ok v) :
    (BLEND_ADD v).dR = min (v.dR + v.sR) 255 ∧
    (BLEND_ADD v).dG = min (v.dG + v.sG) 255 ∧
    (BLEND_ADD v).dB = min (v.dB + v.sB) 255 ∧
    ((BLEND_ADD add_scenario).dR = 255 ∧ (BLEND_ADD add_scenario).dG = 255 ∧
      (BLEND_ADD add_scenario).dB = 0 ∧ (BLEND_ADD add_scenario).dA = 255) := by
  refine ⟨?_, ?_, ?_, by decide⟩ <;> simp only [BLEND_ADD] <;> split <;> omega

theorem BLEND_ADD_saturates_witness :
    channels_ok sample_pixels ∧
    (BLEND_ADD sample_pixels).dR = 255 ∧ (BLEND_ADD sample_pixels).dG = 255 ∧
    (BLEND_ADD sample_pixels).dB = 1 :=
  ⟨by decide, (BLEND_ADD_saturates sample_pixels (by decide)).1,
    (BLEND_ADD_saturates sample_pixels (by decide)).2.1,
    (BLEND_ADD_saturates sample_pixels (by decide)).2.2.1⟩

/-- Claim C7: for source and destination components in 0..255 and a signed temporary,
`BLEND_SUB` sets each of `dR`, `dG`, `dB` to `max(d - s, 0)`. -/
theorem BLEND_SUB_floors (v : BlendVars) (hv : channels_ok v) :
    (BLEND_SUB v).dR = max (v.dR - v.sR) 0 ∧
    (BLEND_SUB v).dG = max (v.dG - v.sG) 0 ∧
    (BLEND_SUB v).dB = max (v.dB - v.sB) 0 := by
  refine ⟨?_, ?_, ?_⟩ <;> simp only [BLEND_SUB] <;> split <;> omega

theorem BLEND_SUB_floors_witness :
    channels_ok sample_pixels ∧
    (BLEND_SUB sample_pixels).dR = 0 ∧ (BLEND_SUB sample_pixels).dG = 0 ∧
    (BLEND_SUB sample_pixels).dB = 0 ∧ (BLEND_SUB add_scenario).dG = 255 :=
  ⟨by decide, (BLEND_SUB_floors sample_pixels (by decide)).1,
    (BLEND_SUB_floors sample_pixels (by decide)).2.1,
    (BLEND_SUB_floors sample_pixels (by decide)).2.2,
    (BLEND_SUB_floors add_scenario (by decide)).2.1⟩

/-- Claim C8: for source and destination components in 0..255, `BLEND_MULT` sets each of
`dR`, `dG`, `dB` to `(d * s + 255) >> 8` when both `d` and `s` are nonzero, and
to 0 when either is zero. -/
theorem BLEND_MULT_rounds (v : BlendVars) (hv : channels_ok v) :
    ((v.dR ≠ 0 ∧ v.sR ≠ 0 → (BLEND_MULT v).dR = (v.dR * v.sR + 255) >>> (8 : Nat)) ∧
      (v.dR = 0 ∨ v.sR = 0 → (BLEND_MULT v).dR = 0)) ∧
    ((v.dG ≠ 0 ∧ v.sG ≠ 0 → (BLEND_MULT v).dG = (v.dG * v.sG + 255) >>> (8 : Nat)) ∧
      (v.dG = 0 ∨ v.sG = 0 → (BLEND_MULT v).dG = 0)) ∧
    ((v.dB ≠ 0 ∧ v.sB ≠ 0 → (BLEND_MULT v).dB = (v.dB * v.sB + 255) >>> (8 : Nat)) ∧
      (v.dB = 0 ∨ v.sB = 0 → (BLEND_MULT v).dB = 0)) := by
  obtain ⟨tmp, sR, sG, sB, sA, dR, dG, dB, dA⟩ := v
  simp only [BLEND_MULT]
  refine ⟨⟨?_, ?_⟩, ⟨?_, ?_⟩, ⟨?_, ?_⟩⟩
  · intro h; rw [if_pos h]
  · intro h; rw [if_neg]; omega
  · intro h; rw [if_pos h]
  · intro h; rw [if_neg]; omega
  · intro h; rw [if_pos h]
  · intro h; rw [if_neg]; omega

theorem BLEND_MULT_rounds_witness :
    channels_ok sample_pixels ∧
    (BLEND_MULT sample_pixels).dR = 79 ∧ (BLEND_MULT sample_pixels).dG = 64 ∧
    (BLEND_MULT sample_pixels).dB = 0 :=
  ⟨by decide, (BLEND_MULT_rounds sample_pixels (by decide)).1.1 (by decide),
    (BLEND_MULT_rounds sample_pixels (by decide)).2.1.1 (by decide),
    (BLEND_MULT_rounds sample_pixels (by decide)).2.2.2 (by decide)⟩

/-- Claim C9: for all source and destination component values, `BLEND_MIN` sets each of
`dR`, `dG`, `dB` to `min(s, d)` and `BLEND_MAX` sets each of them to `max(s, d)`. -/
theorem BLEND_MIN_MAX_select (v : BlendVars) :
    ((BLEND_MIN v).dR = min v.sR v.dR ∧ (BLEND_MIN v).dG = min v.sG v.dG ∧
      (BLEND_MIN v).dB = min v.sB v.dB) ∧
    ((BLEND_MAX v).dR = max v.sR v.dR ∧ (BLEND_MAX v).dG = max v.sG v.dG ∧
      (BLEND_MAX v).dB = max v.sB v.dB) := by
  obtain ⟨tmp, sR, sG, sB, sA, dR, dG, dB, dA⟩ := v
  refine ⟨⟨?_, ?_, ?_⟩, ⟨?_, ?_, ?_⟩⟩ <;> simp only [BLEND_MIN, BLEND_MAX] <;>
    split_ifs <;> dsimp only at * <;> omega

/-- Claim C10: each of `BLEND_ADD`, `BLEND_SUB`, `BLEND_MULT`, `BLEND_MIN`, `BLEND_MAX`
leaves the destination alpha `dA` and the four source components `sR`, `sG`,
`sB`, `sA` unchanged, for every input. -/
theorem rgb_blend_frame (v : BlendVars) :
    ((BLEND_ADD v).dA = v.dA ∧ (BLEND_ADD v).sR = v.sR ∧ (BLEND_ADD v).sG = v.sG ∧
      (BLEND_ADD v).sB = v.sB ∧ (BLEND_ADD v).sA = v.sA) ∧
    ((BLEND_SUB v).dA = v.dA ∧ (BLEND_SUB v).sR = v.sR ∧ (BLEND_SUB v).sG = v.sG ∧
      (BLEND_SUB v).sB = v.sB ∧ (BLEND_SUB v).sA = v.sA) ∧
    ((BLEND_MULT v).dA = v.dA ∧ (BLEND_MULT v).sR = v.sR ∧ (BLEND_MULT v).sG = v.sG ∧
      (BLEND_MULT v).sB = v.sB ∧ (BLEND_MULT v).sA = v.sA) ∧
    ((BLEND_MIN v).dA = v.dA ∧ (BLEND_MIN v).sR = v.sR ∧ (BLEND_MIN v).sG = v.sG ∧
      (BLEND_MIN v).sB = v.sB ∧ (BLEND_MIN v).sA = v.sA) ∧
    ((BLEND_MAX v).dA = v.dA ∧ (BLEND_MAX v).sR = v.sR ∧ (BLEND_MAX v).sG = v.sG ∧
      (BLEND_MAX v).sB = v.sB ∧ (BLEND_MAX v).sA = v.sA) := by
  obtain ⟨tmp, sR, sG, sB, sA, dR, dG, dB, dA⟩ := v
  refine ⟨⟨rfl, rfl, rfl, rfl, rfl⟩, ⟨rfl, rfl, rfl, rfl, rfl⟩, ⟨rfl, rfl, rfl, rfl, rfl⟩,
    ⟨?_, ?_, ?_, ?_, ?_⟩, ⟨?_, ?_, ?_, ?_, ?_⟩⟩ <;>
    simp only [BLEND_MIN, BLEND_MAX] <;> split_ifs <;> rfl

/-! ## The RGBA and alpha blend macros of surface.h -/

theorem shiftRight_8_eq_div (a : Int) : a >>> (8 : Nat) = a / 256 := by
  rw [Int.shiftRight_eq_div_pow]
  norm_num

theorem general_operand_nonneg (sC dC sA : Int) (hs : channel sC) (hd : channel dC)
    (ha : channel sA) : 0 ≤ ALPHA_BLEND_COMP_general_operand sC dC sA := by
  unfold ALPHA_BLEND_COMP_general_operand
  obtain ⟨hs0, hs1⟩ := hs
  obtain ⟨hd0, hd1⟩ := hd
  obtain ⟨ha0, ha1⟩ := ha
  have h1 : 0 ≤ sC * sA := mul_nonneg hs0 ha0
  have h2 : dC * sA ≤ dC * 255 := mul_le_mul_of_nonneg_left ha1 hd0
  have h3 : (sC - dC) * sA = sC * sA - dC * sA := by ring
  norm_num
  omega

theorem comp_signed_eq_general (sC dC sA : Int) :
    ALPHA_BLEND_COMP_signed sC dC sA = ALPHA_BLEND_COMP_general sC dC sA := by
  unfold ALPHA_BLEND_COMP_signed ALPHA_BLEND_COMP_general ALPHA_BLEND_COMP_general_operand
  rw [shiftRight_8_eq_div, shiftRight_8_eq_div]
  have h : dC * 2 ^ 8 + (sC - dC) * sA + sC = ((sC - dC) * sA + sC) + dC * 256 := by
    norm_num
    ring
  rw [h, Int.add_mul_ediv_right _ _ (by norm_num)]

/-- Claim C11: for inputs in 0..255 each RGBA blend macro (`BLEND_RGBA_ADD`, `_SUB`,
`_MULT`, `_MIN`, `_MAX`) yields on `dR`, `dG`, `dB` exactly what its RGB-only
counterpart yields, and sets `dA` to the same per-channel equation applied to
`(sA, dA)`. -/
theorem rgba_blend_refines_rgb (v : BlendVars) (hv : channels_ok v) :
    ((BLEND_RGBA_ADD v).dR = (BLEND_ADD v).dR ∧ (BLEND_RGBA_ADD v).dG = (BLEND_ADD v).dG ∧
      (BLEND_RGBA_ADD v).dB = (BLEND_ADD v).dB ∧
      (BLEND_RGBA_ADD v).dA = min (v.dA + v.sA) 255) ∧
    ((BLEND_RGBA_SUB v).dR = (BLEND_SUB v).dR ∧ (BLEND_RGBA_SUB v).dG = (BLEND_SUB v).dG ∧
      (BLEND_RGBA_SUB v).dB = (BLEND_SUB v).dB ∧
      (BLEND_RGBA_SUB v).dA = max (v.dA - v.sA) 0) ∧
    ((BLEND_RGBA_MULT v).dR = (BLEND_MULT v).dR ∧ (BLEND_RGBA_MULT v).dG = (BLEND_MULT v).dG ∧
      (BLEND_RGBA_MULT v).dB = (BLEND_MULT v).dB ∧
      (BLEND_RGBA_MULT v).dA =
        if v.dA ≠ 0 ∧ v.sA ≠ 0 then (v.dA * v.sA + 255) >>> (8 : Nat) else 0) ∧
    ((BLEND_RGBA_MIN v).dR = (BLEND_MIN v).dR ∧ (BLEND_RGBA_MIN v).dG = (BLEND_MIN v).dG ∧
      (BLEND_RGBA_MIN v).dB = (BLEND_MIN v).dB ∧
      (BLEND_RGBA_MIN v).dA = min v.sA v.dA) ∧
    ((BLEND_RGBA_MAX v).dR = (BLEND_MAX v).dR ∧ (BLEND_RGBA_MAX v).dG = (BLEND_MAX v).dG ∧
      (BLEND_RGBA_MAX v).dB = (BLEND_MAX v).dB ∧
      (BLEND_RGBA_MAX v).dA = max v.sA v.dA) := by
  obtain ⟨tmp, sR, sG, sB, sA, dR, dG, dB, dA⟩ := v
  refine ⟨⟨rfl, rfl, rfl, ?_⟩, ⟨rfl, rfl, rfl, ?_⟩, ⟨rfl, rfl, rfl, rfl⟩,
    ⟨?_, ?_, ?_, ?_⟩, ⟨?_, ?_, ?_, ?_⟩⟩
  · simp only [BLEND_RGBA_ADD]; split <;> omega
  · simp only [BLEND_RGBA_SUB]; split <;> omega
  all_goals
    simp only [BLEND_RGBA_MIN, BLEND_MIN, BLEND_RGBA_MAX, BLEND_MAX]
    split_ifs <;> dsimp only at * <;> omega

theorem rgba_blend_refines_rgb_witness :
    channels_ok sample_pixels ∧
    (BLEND_RGBA_ADD sample_pixels).dA = 86 ∧ (BLEND_RGBA_SUB sample_pixels).dA = 68 ∧
    (BLEND_RGBA_MULT sample_pixels).dA = 3 ∧ (BLEND_RGBA_MIN sample_pixels).dA = 9 ∧
    (BLEND_RGBA_MAX sample_pixels).dA = 77 ∧
    (BLEND_RGBA_ADD sample_pixels).dR = (BLEND_ADD sample_pixels).dR :=
  ⟨by decide, by decide, by decide, by decide, by decide, by decide,
    (rgba_blend_refines_rgb sample_pixels (by decide)).1.1⟩

theorem tdiv_255_eq (a : Int) (ha : 0 ≤ a) : Int.tdiv a 255 = a / 255 :=
  Int.tdiv_eq_ediv ha (by norm_num)

theorem alpha_blend_dA (sp : Bool) (v : BlendVars) (hv : channels_ok v) :
    (ALPHA_BLEND sp v).dA = v.sA + v.dA - (v.sA * v.dA) / 255 := by
  obtain ⟨tmp, sR, sG, sB, sA, dR, dG, dB, dA⟩ := v
  obtain ⟨-, -, -, ⟨ha0, -⟩, -, -, -, ⟨hd0, -⟩⟩ := hv
  dsimp only at ha0 hd0
  by_cases h : dA = 0
  · subst h
    simp [ALPHA_BLEND]
  · simp only [ALPHA_BLEND, ne_eq, h, not_false_eq_true, if_true]
    rw [tdiv_255_eq _ (mul_nonneg ha0 hd0)]

theorem alpha_blend_comp_eq_div (sp : Bool) (sC dC sA : Int) :
    ALPHA_BLEND_COMP sp sC dC sA = ((sC - dC) * sA + sC + dC * 256) / 256 := by
  have h1 : ALPHA_BLEND_COMP_signed sC dC sA = ((sC - dC) * sA + sC + dC * 256) / 256 := by
    unfold ALPHA_BLEND_COMP_signed
    rw [shiftRight_8_eq_div, Int.add_mul_ediv_right _ _ (by norm_num)]
  cases sp
  · show ALPHA_BLEND_COMP_general sC dC sA = _
    rw [← comp_signed_eq_general, h1]
  · exact h1

/-- Claim C12: the two compile-time alternatives of `ALPHA_BLEND_COMP` give the same
integer for all `sC`, `dC`, `sA` in 0..255: `(((sC - dC) * sA + sC) >> 8) + dC`
with a sign-preserving (floor) shift equals
`((dC << 8) + (sC - dC) * sA + sC) >> 8`, whose shifted operand is never negative. -/
theorem alpha_blend_comp_alternatives_agree (sC dC sA : Int)
    (hs : channel sC) (hd : channel dC) (ha : channel sA) :
    ALPHA_BLEND_COMP true sC dC sA = (((sC - dC) * sA + sC) >>> (8 : Nat)) + dC ∧
    ALPHA_BLEND_COMP false sC dC sA = ((dC * 2 ^ 8) + (sC - dC) * sA + sC) >>> (8 : Nat) ∧
    ALPHA_BLEND_COMP true sC dC sA = ALPHA_BLEND_COMP false sC dC sA ∧
    0 ≤ (dC * 2 ^ 8) + (sC - dC) * sA + sC := by
  refine ⟨rfl, rfl, ?_, general_operand_nonneg sC dC sA hs hd ha⟩
  exact comp_signed_eq_general sC dC sA

theorem alpha_blend_comp_alternatives_agree_witness :
    (channel 3 ∧ channel 250 ∧ channel 77) ∧
    ALPHA_BLEND_COMP true 3 250 77 = 175 ∧ ALPHA_BLEND_COMP false 3 250 77 = 175 ∧
    ALPHA_BLEND_COMP true 3 250 77 = ALPHA_BLEND_COMP false 3 250 77 :=
  ⟨by decide, by decide, by decide,
    (alpha_blend_comp_alternatives_agree 3 250 77 (by decide) (by decide) (by decide)).2.2.1⟩

/-- Claim C13, as amended: for all `s`, `d`, `sA` in 0..255 and a nonzero destination
alpha, `ALPHA_BLEND` sets each colour channel to
`((s - d) * sA + s + d * 256) / 256` (integer division of a non-negative
numerator), and `ALPHA_BLEND_COMP(s, d, sA)` equals that value under either
alternative. -/
theorem alpha_blend_colour (sp : Bool) (v : BlendVars) (hv : channels_ok v)
    (hdA : v.dA ≠ 0) :
    (ALPHA_BLEND sp v).dR = ((v.sR - v.dR) * v.sA + v.sR + v.dR * 256) / 256 ∧
    (ALPHA_BLEND sp v).dG = ((v.sG - v.dG) * v.sA + v.sG + v.dG * 256) / 256 ∧
    (ALPHA_BLEND sp v).dB = ((v.sB - v.dB) * v.sA + v.sB + v.dB * 256) / 256 ∧
    (ALPHA_BLEND sp v).dR = ALPHA_BLEND_COMP sp v.sR v.dR v.sA ∧
    0 ≤ (v.sR - v.dR) * v.sA + v.sR + v.dR * 256 ∧
    0 ≤ (v.sG - v.dG) * v.sA + v.sG + v.dG * 256 ∧
    0 ≤ (v.sB - v.dB) * v.sA + v.sB + v.dB * 256 := by
  obtain ⟨tmp, sR, sG, sB, sA, dR, dG, dB, dA⟩ := v
  obtain ⟨hsR, hsG, hsB, hsA, hdR, hdG, hdB, -⟩ := hv
  dsimp only at *
  have e : ∀ s d : Int, (s - d) * sA + s + d * 256 = ALPHA_BLEND_COMP_general_operand s d sA := by
    intro s d
    unfold ALPHA_BLEND_COMP_general_operand
    norm_num
    ring
  refine ⟨?_, ?_, ?_, ?_, ?_, ?_, ?_⟩
  · simp only [ALPHA_BLEND, ne_eq, hdA, not_false_eq_true, if_true]
    exact alpha_blend_comp_eq_div sp sR dR sA
  · simp only [ALPHA_BLEND, ne_eq, hdA, not_false_eq_true, if_true]
    exact alpha_blend_comp_eq_div sp sG dG sA
  · simp only [ALPHA_BLEND, ne_eq, hdA, not_false_eq_true, if_true]
    exact alpha_blend_comp_eq_div sp sB dB sA
  · simp only [ALPHA_BLEND, ne_eq, hdA, not_false_eq_true, if_true]
  · rw [e]; exact general_operand_nonneg sR dR sA hsR hdR hsA
  · rw [e]; exact general_operand_nonneg sG dG sA hsG hdG hsA
  · rw [e]; exact general_operand_nonneg sB dB sA hsB hdB hsA

theorem alpha_blend_colour_witness :
    channels_ok sample_pixels ∧ sample_pixels.dA ≠ 0 ∧
    (ALPHA_BLEND true sample_pixels).dR = 104 ∧
    (ALPHA_BLEND true sample_pixels).dR =
      ((sample_pixels.sR - sample_pixels.dR) * sample_pixels.sA + sample_pixels.sR
        + sample_pixels.dR * 256) / 256 :=
  ⟨by decide, by decide, by decide,
    (alpha_blend_colour true sample_pixels (by decide) (by decide)).1⟩

/-- The formula `((s - d) * sA + s * 256) / 256` fails for claim C13 on source
`(100,100,100,128)` over destination `(0,0,0,255)`: the macro writes 50 under
either alternative, the formula gives 150. -/
theorem alpha_blend_formula_counterexample :
    channels_ok alpha_scenario ∧ alpha_scenario.dA ≠ 0 ∧
    (ALPHA_BLEND true alpha_scenario).dR = 50 ∧ (ALPHA_BLEND false alpha_scenario).dR = 50 ∧
    ALPHA_BLEND_COMP true 100 0 128 = 50 ∧
    ((alpha_scenario.sR - alpha_scenario.dR) * alpha_scenario.sA + alpha_scenario.sR * 256) / 256
      = 150 ∧
    ¬ ((ALPHA_BLEND true alpha_scenario).dR =
        ((alpha_scenario.sR - alpha_scenario.dR) * alpha_scenario.sA
          + alpha_scenario.sR * 256) / 256) := by
  decide

/-- Claim C14: for all `sA`, `dA` in 0..255, `ALPHA_BLEND` leaves the destination alpha
equal to `sA + dA - (sA * dA) / 255` (integer division), in the branch where `dA`
is nonzero and also in the branch where `dA` is zero. -/
theorem alpha_blend_alpha (sp : Bool) (v : BlendVars) (hv : channels_ok v) :
    (v.dA ≠ 0 → (ALPHA_BLEND sp v).dA = v.sA + v.dA - (v.sA * v.dA) / 255) ∧
    (v.dA = 0 → (ALPHA_BLEND sp v).dA = v.sA + v.dA - (v.sA * v.dA) / 255) :=
  ⟨fun _ => alpha_blend_dA sp v hv, fun _ => alpha_blend_dA sp v hv⟩

theorem alpha_blend_alpha_witness :
    channels_ok sample_pixels ∧ sample_pixels.dA ≠ 0 ∧
    (ALPHA_BLEND true sample_pixels).dA = 84 ∧
    (ALPHA_BLEND true sample_pixels).dA =
      sample_pixels.sA + sample_pixels.dA - (sample_pixels.sA * sample_pixels.dA) / 255 :=
  ⟨by decide, by decide, by decide,
    (alpha_blend_alpha true sample_pixels (by decide)).1 (by decide)⟩

/-- Claim C15: when the destination alpha `dA` is 0, `ALPHA_BLEND` overwrites the
destination with the source: afterwards `(dR, dG, dB, dA) = (sR, sG, sB, sA)`, for
every source pixel and every prior destination colour. -/
theorem alpha_blend_overwrites (sp : Bool) (v : BlendVars) (hdA : v.dA = 0) :
    (ALPHA_BLEND sp v).dR = v.sR ∧ (ALPHA_BLEND sp v).dG = v.sG ∧
    (ALPHA_BLEND sp v).dB = v.sB ∧ (ALPHA_BLEND sp v).dA = v.sA := by
  obtain ⟨tmp, sR, sG, sB, sA, dR, dG, dB, dA⟩ := v
  dsimp only at hdA
  subst hdA
  exact ⟨rfl, rfl, rfl, rfl⟩

theorem alpha_blend_overwrites_witness :
    (⟨0, 10, 20, 30, 40, 50, 60, 70, 0⟩ : BlendVars).dA = 0 ∧
    (ALPHA_BLEND true ⟨0, 10, 20, 30, 40, 50, 60, 70, 0⟩).dR = 10 ∧
    (ALPHA_BLEND true ⟨0, 10, 20, 30, 40, 50, 60, 70, 0⟩).dG = 20 ∧
    (ALPHA_BLEND true ⟨0, 10, 20, 30, 40, 50, 60, 70, 0⟩).dB = 30 ∧
    (ALPHA_BLEND true ⟨0, 10, 20, 30, 40, 50, 60, 70, 0⟩).dA = 40 :=
  ⟨rfl, alpha_blend_overwrites true ⟨0, 10, 20, 30, 40, 50, 60, 70, 0⟩ rfl⟩

theorem premultiplied_comp_channel (s d sA : Int) (ha : channel sA) (hd : channel d)
    (hs : 0 ≤ s ∧ s ≤ sA) : channel (ALPHA_BLEND_PREMULTIPLIED_COMP s d sA) := by
  unfold ALPHA_BLEND_PREMULTIPLIED_COMP
  rw [shiftRight_8_eq_div]
  unfold channel at *
  have h1 : (d + 1) * sA ≤ (d + 1) * 255 := mul_le_mul_of_nonneg_left ha.2 (by omega)
  have h2 : 0 ≤ (255 - d) * (256 - sA) := mul_nonneg (by omega) (by omega)
  have e2 : (255 - d) * (256 - sA) = 255 * 256 - 255 * sA - 256 * d + d * sA := by ring
  have e3 : (d + 1) * sA = d * sA + sA := by ring
  rw [e2] at h2
  rw [e3] at h1 ⊢
  constructor <;> omega

theorem store_Uint8_of_channel (x : Int) (hx : channel x) : store_Uint8 x = x := by
  unfold store_Uint8
  unfold channel at hx
  omega

/-- Claim C16, as amended: for channel values in 0..255, `ALPHA_BLEND_PREMULTIPLIED` sets
each of `dR`, `dG`, `dB` and `dA` to `s + d - (((d + 1) * sA) >> 8)` reduced modulo
256 by the store into the 8-bit component, where for the alpha channel `s` is
`sA` and `d` is the old `dA`, and every channel uses the old destination value of
that channel; the reduction changes nothing for the alpha channel, and nothing
for a colour channel with `s <= sA` (a premultiplied source). -/
theorem alpha_blend_premultiplied_channels (v : BlendVars) (hv : channels_ok v) :
    (ALPHA_BLEND_PREMULTIPLIED v).dR =
      (v.sR + v.dR - (((v.dR + 1) * v.sA) >>> (8 : Nat))) % 256 ∧
    (ALPHA_BLEND_PREMULTIPLIED v).dG =
      (v.sG + v.dG - (((v.dG + 1) * v.sA) >>> (8 : Nat))) % 256 ∧
    (ALPHA_BLEND_PREMULTIPLIED v).dB =
      (v.sB + v.dB - (((v.dB + 1) * v.sA) >>> (8 : Nat))) % 256 ∧
    (ALPHA_BLEND_PREMULTIPLIED v).dA =
      (v.sA + v.dA - (((v.dA + 1) * v.sA) >>> (8 : Nat))) % 256 ∧
    (ALPHA_BLEND_PREMULTIPLIED v).dA = v.sA + v.dA - (((v.dA + 1) * v.sA) >>> (8 : Nat)) ∧
    (v.sR ≤ v.sA →
      (ALPHA_BLEND_PREMULTIPLIED v).dR = v.sR + v.dR - (((v.dR + 1) * v.sA) >>> (8 : Nat))) ∧
    (v.sG ≤ v.sA →
      (ALPHA_BLEND_PREMULTIPLIED v).dG = v.sG + v.dG - (((v.dG + 1) * v.sA) >>> (8 : Nat))) ∧
    (v.sB ≤ v.sA →
      (ALPHA_BLEND_PREMULTIPLIED v).dB = v.sB + v.dB - (((v.dB + 1) * v.sA) >>> (8 : Nat))) ∧
    (ALPHA_BLEND_PREMULTIPLIED v).sA = v.sA := by
  obtain ⟨tmp, sR, sG, sB, sA, dR, dG, dB, dA⟩ := v
  obtain ⟨hsR, hsG, hsB, hsA, hdR, hdG, hdB, hdA⟩ := hv
  dsimp only at *
  refine ⟨rfl, rfl, rfl, rfl, ?_, ?_, ?_, ?_, rfl⟩
  · exact store_Uint8_of_channel _ (premultiplied_comp_channel sA dA sA hsA hdA ⟨hsA.1, le_refl sA⟩)
  · intro h
    exact store_Uint8_of_channel _ (premultiplied_comp_channel sR dR sA hsA hdR ⟨hsR.1, h⟩)
  · intro h
    exact store_Uint8_of_channel _ (premultiplied_comp_channel sG dG sA hsA hdG ⟨hsG.1, h⟩)
  · intro h
    exact store_Uint8_of_channel _ (premultiplied_comp_channel sB dB sA hsA hdB ⟨hsB.1, h⟩)

theorem alpha_blend_premultiplied_channels_witness :
    channels_ok sample_pixels ∧
    (ALPHA_BLEND_PREMULTIPLIED sample_pixels).dR = 41 ∧
    (ALPHA_BLEND_PREMULTIPLIED sample_pixels).dG = 252 ∧
    (ALPHA_BLEND_PREMULTIPLIED sample_pixels).dB = 1 ∧
    (ALPHA_BLEND_PREMULTIPLIED sample_pixels).dA = 84 ∧
    (ALPHA_BLEND_PREMULTIPLIED sample_pixels).dA =
      sample_pixels.sA + sample_pixels.dA -
        (((sample_pixels.dA + 1) * sample_pixels.sA) >>> (8 : Nat)) :=
  ⟨by decide, by decide, by decide, by decide, by decide,
    (alpha_blend_premultiplied_channels sample_pixels (by decide)).2.2.2.2.1⟩

/-- The equation of claim C16 without the reduction fails on source `(200,128,1,9)`
over destination `(100,128,0,77)`: the expression for the red channel is 297,
and the 8-bit component `dR` holds 41 after the macro. -/
theorem alpha_blend_premultiplied_counterexample :
    channels_ok sample_pixels ∧
    sample_pixels.sR + sample_pixels.dR -
      (((sample_pixels.dR + 1) * sample_pixels.sA) >>> (8 : Nat)) = 297 ∧
    (ALPHA_BLEND_PREMULTIPLIED sample_pixels).dR = 41 ∧
    ¬ ((ALPHA_BLEND_PREMULTIPLIED sample_pixels).dR =
        sample_pixels.sR + sample_pixels.dR -
          (((sample_pixels.dR + 1) * sample_pixels.sA) >>> (8 : Nat))) := by
  decide

/-- Claim C17: `ALPHA_BLEND` of source `(100,100,100,128)` onto destination
`(0,0,0,255)` leaves the destination at `(50,50,50,255)`, each colour channel
within 1 of 50, under either alternative of `ALPHA_BLEND_COMP`; and an opaque
destination (`dA = 255`) stays opaque for every `sA` in 0..255. -/
theorem alpha_blend_scenario (sp : Bool) (v : BlendVars) (hv : channels_ok v)
    (hdA : v.dA = 255) :
    ((ALPHA_BLEND sp alpha_scenario).dR = 50 ∧ (ALPHA_BLEND sp alpha_scenario).dG = 50 ∧
      (ALPHA_BLEND sp alpha_scenario).dB = 50 ∧ (ALPHA_BLEND sp alpha_scenario).dA = 255) ∧
    (|(ALPHA_BLEND sp alpha_scenario).dR - 50| ≤ 1 ∧ |(ALPHA_BLEND sp alpha_scenario).dG - 50| ≤ 1 ∧
      |(ALPHA_BLEND sp alpha_scenario).dB - 50| ≤ 1) ∧
    (ALPHA_BLEND sp v).dA = 255 := by
  have hs : (ALPHA_BLEND sp alpha_scenario).dR = 50 ∧ (ALPHA_BLEND sp alpha_scenario).dG = 50 ∧
      (ALPHA_BLEND sp alpha_scenario).dB = 50 ∧ (ALPHA_BLEND sp alpha_scenario).dA = 255 := by
    cases sp <;> decide
  refine ⟨hs, ?_, ?_⟩
  · rw [hs.1, hs.2.1, hs.2.2.1]
    decide
  · rw [alpha_blend_dA sp v hv, hdA]
    omega

theorem alpha_blend_scenario_witness :
    channels_ok alpha_scenario ∧ alpha_scenario.dA = 255 ∧
    (ALPHA_BLEND true alpha_scenario).dA = 255 ∧
    (ALPHA_BLEND false ⟨0, 1, 2, 3, 200, 4, 5, 6, 255⟩).dA = 255 :=
  ⟨by decide, rfl, (alpha_blend_scenario true alpha_scenario (by decide) rfl).2.2,
    (alpha_blend_scenario false ⟨0, 1, 2, 3, 200, 4, 5, 6, 255⟩ (by decide) rfl).2.2⟩

/-! ## The operations of bitmask.c, as the specification describes them -/

/-- Claim C18: for all masks `a` and `b` and all offsets, negative ones and ones that put
`b` partly or wholly outside `a` included, `bitmask_overlap(a, b, xoffset, yoffset)`
is nonzero if and only if `bitmask_overlap_area(a, b, xoffset, yoffset) > 0`; for
an 8 by 8 mask with only bit (3,3) set and a 1 by 1 all-set mask, overlap at
(3,3) is true with area 1 and overlap at (4,4) is false. -/
theorem overlap_iff_area_pos (t : Target) (a b : bitmask_t) (xoffset yoffset : Int) :
    (bitmask_overlap t a b xoffset yoffset ≠ 0 ↔ 0 < bitmask_overlap_area t a b xoffset yoffset) ∧
    (bitmask_overlap lp64 mask8 mask1 3 3 ≠ 0 ∧ bitmask_overlap_area lp64 mask8 mask1 3 3 = 1 ∧
      bitmask_overlap lp64 mask8 mask1 4 4 = 0) := by
  refine ⟨?_, by decide⟩
  unfold bitmask_overlap bitmask_overlap_area
  have h : (0 : Int) < ((coords a).countP (coincide t a b xoffset yoffset) : Nat) ↔
      (coords a).any (coincide t a b xoffset yoffset) = true := by
    rw [List.any_eq_true, ← List.countP_pos_iff]
    exact Int.natCast_pos
  rw [h]
  by_cases hc : (coords a).any (coincide t a b xoffset yoffset) = true
  · rw [if_pos hc]
    simp [hc]
  · rw [if_neg hc]
    simp [hc]

theorem mem_coords (m : bitmask_t) (x y : Int) :
    (x, y) ∈ coords m ↔ (0 ≤ x ∧ x < m.w) ∧ (0 ≤ y ∧ y < m.h) := by
  unfold coords
  constructor
  · intro h
    obtain ⟨i, hi, h2⟩ := List.mem_flatMap.1 h
    obtain ⟨j, hj, h3⟩ := List.mem_map.1 h2
    have hi2 := List.mem_range.1 hi
    have hj2 := List.mem_range.1 hj
    have e1 : (i : Int) = x := congrArg Prod.fst h3
    have e2 : (j : Int) = y := congrArg Prod.snd h3
    omega
  · rintro ⟨⟨hx0, hx1⟩, ⟨hy0, hy1⟩⟩
    refine List.mem_flatMap.2 ⟨x.toNat, List.mem_range.2 (by omega), ?_⟩
    refine List.mem_map.2 ⟨y.toNat, List.mem_range.2 (by omega), ?_⟩
    rw [Int.toNat_of_nonneg hx0, Int.toNat_of_nonneg hy0]

theorem setbit_effect (t : Target) (m : bitmask_t) (x y : Int)
    (hlen : (m.bits.length : Int) = storage_words t m.w m.h)
    (hx : 0 ≤ x ∧ x < m.w) (hy : 0 ≤ y ∧ y < m.h) :
    ∃ m1, bitmask_setbit t m x y = some m1 ∧ m1.w = m.w ∧ m1.h = m.h ∧
      m1.bits.length = m.bits.length ∧
      ∀ x' y', (0 ≤ x' ∧ x' < m.w) → (0 ≤ y' ∧ y' < m.h) →
        bitmask_getbit t m1 x' y' =
          if x' = x ∧ y' = y then some 1 else bitmask_getbit t m x' y' := by
  have hb := word_index_bounds t m x y hx hy
  obtain ⟨wd, hwd, -⟩ := word_at_some m (word_index t m x y) hb.1 (by omega)
  have hlt := bit_offset_toNat_lt t x hx.1
  refine ⟨{ m with
      bits := List.set m.bits (word_index t m x y).toNat (wd ||| BITMASK_N t (bit_offset t x)) },
      by unfold bitmask_setbit; rw [hwd]; rfl, rfl, rfl, by simp, ?_⟩
  intro x' y' hx' hy'
  by_cases hxy : x' = x ∧ y' = y
  · obtain ⟨rfl, rfl⟩ := hxy
    rw [if_pos ⟨rfl, rfl⟩, getbit_updated_same t m x' y' _ hb.1 (by omega),
      BITMASK_N_eq t _ hlt, if_pos]
    rw [and_two_pow_ne_zero, testBit_set]
    simp
  · rw [if_neg hxy]
    apply getbit_updated_other t m x y x' y' wd _ hlen hx hy hx' hy' _ hwd
    · intro j _ hj
      rw [BITMASK_N_eq t _ hlt, testBit_set]
      simp [Ne.symm hj]
    · intro h
      exact hxy ⟨congrArg Prod.fst h, congrArg Prod.snd h⟩

theorem clearbit_effect (t : Target) (m : bitmask_t) (x y : Int)
    (hlen : (m.bits.length : Int) = storage_words t m.w m.h)
    (hx : 0 ≤ x ∧ x < m.w) (hy : 0 ≤ y ∧ y < m.h) :
    ∃ m1, bitmask_clearbit t m x y = some m1 ∧ m1.w = m.w ∧ m1.h = m.h ∧
      m1.bits.length = m.bits.length ∧
      ∀ x' y', (0 ≤ x' ∧ x' < m.w) → (0 ≤ y' ∧ y' < m.h) →
        bitmask_getbit t m1 x' y' =
          if x' = x ∧ y' = y then some 0 else bitmask_getbit t m x' y' := by
  have hb := word_index_bounds t m x y hx hy
  obtain ⟨wd, hwd, -⟩ := word_at_some m (word_index t m x y) hb.1 (by omega)
  have hlt := bit_offset_toNat_lt t x hx.1
  refine ⟨{ m with
      bits := List.set m.bits (word_index t m x y).toNat
                (wd &&& BITMASK_W_not t (BITMASK_N t (bit_offset t x))) },
      by unfold bitmask_clearbit; rw [hwd]; rfl, rfl, rfl, by simp, ?_⟩
  intro x' y' hx' hy'
  by_cases hxy : x' = x ∧ y' = y
  · obtain ⟨rfl, rfl⟩ := hxy
    rw [if_pos ⟨rfl, rfl⟩, getbit_updated_same t m x' y' _ hb.1 (by omega),
      BITMASK_N_eq t _ hlt, if_neg]
    rw [and_two_pow_ne_zero, testBit_clear]
    simp [hlt]
  · rw [if_neg hxy]
    apply getbit_updated_other t m x y x' y' wd _ hlen hx hy hx' hy' _ hwd
    · intro j hjL hj
      rw [BITMASK_N_eq t _ hlt, testBit_clear]
      simp [Ne.symm hj, hjL]
    · intro h
      exact hxy ⟨congrArg Prod.fst h, congrArg Prod.snd h⟩

theorem foldlM_writes (t : Target) (op : bitmask_t → Int → Int → Option bitmask_t) (v : Int)
    (c : Int × Int → Bool)
    (hop : ∀ (m : bitmask_t) (x y : Int),
      (m.bits.length : Int) = storage_words t m.w m.h →
      (0 ≤ x ∧ x < m.w) → (0 ≤ y ∧ y < m.h) →
      ∃ m1, op m x y = some m1 ∧ m1.w = m.w ∧ m1.h = m.h ∧
        m1.bits.length = m.bits.length ∧
        ∀ x' y', (0 ≤ x' ∧ x' < m.w) → (0 ≤ y' ∧ y' < m.h) →
          bitmask_getbit t m1 x' y' =
            if x' = x ∧ y' = y then some v else bitmask_getbit t m x' y')
    (l : List (Int × Int)) :
    ∀ (acc : bitmask_t), (acc.bits.length : Int) = storage_words t acc.w acc.h →
      (∀ p ∈ l, (0 ≤ p.1 ∧ p.1 < acc.w) ∧ (0 ≤ p.2 ∧ p.2 < acc.h)) →
      ∃ r, l.foldlM (fun acc p => if c p = true then op acc p.1 p.2 else some acc) acc = some r ∧
        r.w = acc.w ∧ r.h = acc.h ∧ r.bits.length = acc.bits.length ∧
        ∀ x y, (0 ≤ x ∧ x < acc.w) → (0 ≤ y ∧ y < acc.h) →
          bitmask_getbit t r x y =
            if (x, y) ∈ l ∧ c (x, y) = true then some v else bitmask_getbit t acc x y := by
  induction l with
  | nil =>
    intro acc _ _
    exact ⟨acc, rfl, rfl, rfl, rfl, fun x y _ _ => by simp⟩
  | cons p l ih =>
    intro acc hlen hl
    have hp := hl p (List.mem_cons_self p l)
    have hl2 : ∀ q ∈ l, (0 ≤ q.1 ∧ q.1 < acc.w) ∧ (0 ≤ q.2 ∧ q.2 < acc.h) :=
      fun q hq => hl q (List.mem_cons_of_mem p hq)
    rw [List.foldlM_cons]
    by_cases hc : c p = true
    · obtain ⟨m1, hm1, hw, hh, hlen1, hget⟩ := hop acc p.1 p.2 hlen hp.1 hp.2
      have hlen2 : (m1.bits.length : Int) = storage_words t m1.w m1.h := by
        rw [hlen1, hw, hh]; exact hlen
      obtain ⟨r, hr, hrw, hrh, hrl, hrget⟩ := ih m1 hlen2 (by rw [hw, hh]; exact hl2)
      refine ⟨r, ?_, by rw [hrw, hw], by rw [hrh, hh], by rw [hrl, hlen1], ?_⟩
      · rw [if_pos hc, hm1]
        exact hr
      · intro x y hx hy
        rw [hrget x y (by rw [hw]; exact hx) (by rw [hh]; exact hy), hget x y hx hy]
        by_cases h1 : (x, y) ∈ l ∧ c (x, y) = true
        · rw [if_pos h1, if_pos ⟨List.mem_cons_of_mem p h1.1, h1.2⟩]
        · rw [if_neg h1]
          by_cases h2 : x = p.1 ∧ y = p.2
          · have e : (x, y) = p := by rw [h2.1, h2.2]
            rw [if_pos h2, if_pos ⟨by rw [e]; exact List.mem_cons_self p l, by rw [e]; exact hc⟩]
          · rw [if_neg h2, if_neg]
            rintro ⟨hmem, hcx⟩
            rcases List.mem_cons.1 hmem with e | hmem2
            · exact h2 ⟨congrArg Prod.fst e, congrArg Prod.snd e⟩
            · exact h1 ⟨hmem2, hcx⟩
    · obtain ⟨r, hr, hrw, hrh, hrl, hrget⟩ := ih acc hlen hl2
      refine ⟨r, ?_, hrw, hrh, hrl, ?_⟩
      · rw [if_neg hc]
        exact hr
      · intro x y hx hy
        rw [hrget x y hx hy]
        by_cases h1 : (x, y) ∈ l ∧ c (x, y) = true
        · rw [if_pos h1, if_pos ⟨List.mem_cons_of_mem p h1.1, h1.2⟩]
        · rw [if_neg h1, if_neg]
          rintro ⟨hmem, hcx⟩
          rcases List.mem_cons.1 hmem with e | hmem2
          · rw [e] at hcx
            exact hc hcx
          · exact h1 ⟨hmem2, hcx⟩

theorem coords_congr (a a1 : bitmask_t) (hw : a1.w = a.w) (hh : a1.h = a.h) :
    coords a1 = coords a := by
  unfold coords
  rw [hw, hh]

/-- Claim C20: for every mask `a` with its storage, every mask `b` and every offset such
that the bits of `a` under the set bits of the translated `b` were all zero
beforehand, `bitmask_draw(a, b, xoffset, yoffset)` followed by
`bitmask_erase(a, b, xoffset, yoffset)` restores `a`: both calls are defined, the
dimensions are unchanged and every in-range bit of `a` has its original value. -/
theorem draw_then_erase_restores (t : Target) (a b : bitmask_t) (xoffset yoffset : Int)
    (hlen : (a.bits.length : Int) = storage_words t a.w a.h)
    (hzero : ∀ x y, (0 ≤ x ∧ x < a.w) → (0 ≤ y ∧ y < a.h) →
      bit_is_set t b (x - xoffset) (y - yoffset) = true → bitmask_getbit t a x y = some 0) :
    ∃ a1 a2, bitmask_draw t a b xoffset yoffset = some a1 ∧
      bitmask_erase t a1 b xoffset yoffset = some a2 ∧
      a2.w = a.w ∧ a2.h = a.h ∧
      ∀ x y, (0 ≤ x ∧ x < a.w) → (0 ≤ y ∧ y < a.h) →
        bitmask_getbit t a2 x y = bitmask_getbit t a x y := by
  obtain ⟨a1, h1, hw1, hh1, hl1, hg1⟩ :=
    foldlM_writes t (bitmask_setbit t) 1
      (fun p => bit_is_set t b (p.1 - xoffset) (p.2 - yoffset))
      (setbit_effect t) (coords a) a hlen
      (fun p hp => (mem_coords a p.1 p.2).1 hp)
  have hlen1 : (a1.bits.length : Int) = storage_words t a1.w a1.h := by
    rw [hl1, hw1, hh1]; exact hlen
  obtain ⟨a2, h2, hw2, hh2, -, hg2⟩ :=
    foldlM_writes t (bitmask_clearbit t) 0
      (fun p => bit_is_set t b (p.1 - xoffset) (p.2 - yoffset))
      (clearbit_effect t) (coords a) a1 hlen1
      (fun p hp => by rw [hw1, hh1]; exact (mem_coords a p.1 p.2).1 hp)
  refine ⟨a1, a2, h1, ?_, by rw [hw2, hw1], by rw [hh2, hh1], ?_⟩
  · unfold bitmask_erase
    rw [coords_congr a a1 hw1 hh1]
    exact h2
  · intro x y hx hy
    rw [hg2 x y (by rw [hw1]; exact hx) (by rw [hh1]; exact hy), hg1 x y hx hy]
    by_cases hc : (x, y) ∈ coords a ∧
        (fun p : Int × Int => bit_is_set t b (p.1 - xoffset) (p.2 - yoffset)) (x, y) = true
    · rw [if_pos hc]
      exact (hzero x y hx hy hc.2).symm
    · rw [if_neg hc, if_neg hc]

theorem draw_then_erase_restores_witness :
    ((mask3.bits.length : Int) = storage_words lp64 mask3.w mask3.h) ∧
    bitmask_draw lp64 mask3 mask2 1 (-1) = some ⟨3, 2, [5, 4]⟩ ∧
    bitmask_erase lp64 ⟨3, 2, [5, 4]⟩ mask2 1 (-1) = some mask3 ∧
    ∃ a1 a2, bitmask_draw lp64 mask3 mask2 1 (-1) = some a1 ∧
      bitmask_erase lp64 a1 mask2 1 (-1) = some a2 ∧
      a2.w = mask3.w ∧ a2.h = mask3.h ∧
      ∀ x y, (0 ≤ x ∧ x < mask3.w) → (0 ≤ y ∧ y < mask3.h) →
        bitmask_getbit lp64 a2 x y = bitmask_getbit lp64 mask3 x y :=
  ⟨by decide, by decide, by decide,
    draw_then_erase_restores lp64 mask3 mask2 1 (-1) (by decide) (by
      intro x y hx hy
      have hx2 : x = 0 ∨ x = 1 ∨ x = 2 := by
        have h0 := hx.1
        have h1 : x < 3 := hx.2
        omega
      have hy2 : y = 0 ∨ y = 1 := by
        have h0 := hy.1
        have h1 : y < 2 := hy.2
        omega
      rcases hx2 with rfl | rfl | rfl <;> rcases hy2 with rfl | rfl <;> decide)⟩

theorem loop_test_spec {σ : Type} (code : σ → σ) (k : Nat) :
    ∀ s : σ, loop_test code s ((k : Int) + 1) = (code^[4 * k] s, 0) := by
  induction k with
  | zero =>
    intro s
    rw [loop_test]
    simp
  | succ k ih =>
    intro s
    rw [loop_test]
    have h : ((k + 1 : Nat) : Int) + 1 - 1 > 0 := by omega
    rw [dif_pos h]
    have e : ((k + 1 : Nat) : Int) + 1 - 1 = (k : Int) + 1 := by omega
    rw [e, ih]
    have e2 : 4 * (k + 1) = 4 * k + 4 := by ring
    rw [e2, Function.iterate_add_apply]
    rfl

theorem land_3_natCast (k : Nat) : Int.land (k : Int) 3 = ((k % 4 : Nat) : Int) := by
  show ((k &&& 3 : Nat) : Int) = _
  have : k &&& 3 = k % 4 := Nat.and_pow_two_sub_one_eq_mod k 2
  rw [this]

theorem tdiv_4_natCast (k : Nat) : Int.tdiv ((k : Int) + 3) 4 = (((k + 3) / 4 : Nat) : Int) := by
  rw [Int.tdiv_eq_ediv (by omega) (by norm_num)]
  norm_cast

theorem LOOP_UNROLLED4_natCast {σ : Type} (code : σ → σ) (k : Nat) (hk : 1 ≤ k) (s : σ) :
    LOOP_UNROLLED4 code (k : Int) s = (code^[k] s, 0) := by
  simp only [LOOP_UNROLLED4]
  rw [land_3_natCast, tdiv_4_natCast]
  have hr : k % 4 = 0 ∨ k % 4 = 1 ∨ k % 4 = 2 ∨ k % 4 = 3 := by omega
  have hq := Nat.div_add_mod k 4
  rcases hr with h | h | h | h
  · have e1 : (((k + 3) / 4 : Nat) : Int) = ((k / 4 - 1 : Nat) : Int) + 1 := by omega
    have e2 : k = 4 * (k / 4 - 1) + 4 := by omega
    rw [h, e1, if_pos (by norm_num), loop_test_spec]
    conv_rhs => rw [e2, Function.iterate_add_apply]
    rfl
  · have e1 : (((k + 3) / 4 : Nat) : Int) = ((k / 4 : Nat) : Int) + 1 := by omega
    have e2 : k = 4 * (k / 4) + 1 := by omega
    rw [h, e1, if_neg (by norm_num), if_neg (by norm_num), if_neg (by norm_num),
      if_pos (by norm_num), loop_test_spec]
    conv_rhs => rw [e2, Function.iterate_add_apply]
    rfl
  · have e1 : (((k + 3) / 4 : Nat) : Int) = ((k / 4 : Nat) : Int) + 1 := by omega
    have e2 : k = 4 * (k / 4) + 2 := by omega
    rw [h, e1, if_neg (by norm_num), if_neg (by norm_num), if_pos (by norm_num), loop_test_spec]
    conv_rhs => rw [e2, Function.iterate_add_apply]
    rfl
  · have e1 : (((k + 3) / 4 : Nat) : Int) = ((k / 4 : Nat) : Int) + 1 := by omega
    have e2 : k = 4 * (k / 4) + 3 := by omega
    rw [h, e1, if_neg (by norm_num), if_pos (by norm_num), loop_test_spec]
    conv_rhs => rw [e2, Function.iterate_add_apply]
    rfl

theorem visit_iterate (k : Nat) : visit^[k] (0, []) = (k, List.range k) := by
  induction k with
  | zero => rfl
  | succ k ih =>
    rw [Function.iterate_succ_apply', ih, List.range_succ]
    rfl

/-- Claim C21: for every `width >= 1`, `LOOP_UNROLLED4(code, n, width)` executes `code`
exactly `width` times and ends with `n = 0`; a row loop whose body handles the
pixel under a cursor and advances it handles the pixels `0, ..., width - 1`, each
once, in order. -/
theorem LOOP_UNROLLED4_runs_width_times {σ : Type} (code : σ → σ) (width : Int) (s : σ)
    (hw : 1 ≤ width) :
    LOOP_UNROLLED4 code width s = (code^[width.toNat] s, 0) ∧
    LOOP_UNROLLED4 visit width (0, []) = ((width.toNat, List.range width.toNat), 0) := by
  obtain ⟨k, rfl⟩ := Int.eq_ofNat_of_zero_le (le_trans (by norm_num) hw)
  have hk : 1 ≤ k := by omega
  rw [LOOP_UNROLLED4_natCast code k hk, LOOP_UNROLLED4_natCast visit k hk, visit_iterate]
  exact ⟨rfl, rfl⟩

theorem LOOP_UNROLLED4_runs_width_times_witness :
    (1 : Int) ≤ 6 ∧ LOOP_UNROLLED4 visit 6 (0, []) = ((6, [0, 1, 2, 3, 4, 5]), 0) :=
  ⟨by decide, (LOOP_UNROLLED4_runs_width_times visit 6 (0, []) (by decide)).2⟩

/-- Claim C22: for `width = 0`, `LOOP_UNROLLED4(code, n, width)` does not skip the body:
`n` is 0 on entry, the switch enters at `case 0`, the four copies of `code` run,
and only then the test `--n > 0` fails, leaving `n = -1`; `code` has run exactly
4 times. -/
theorem LOOP_UNROLLED4_width_zero {σ : Type} (code : σ → σ) (s : σ) :
    LOOP_UNROLLED4 code 0 s = (code (code (code (code s))), -1) ∧
    Int.tdiv (0 + 3) 4 = 0 ∧ Int.land 0 3 = 0 ∧
    LOOP_UNROLLED4 visit 0 (0, []) = ((4, [0, 1, 2, 3]), -1) := by
  have h : ∀ (τ : Type) (c : τ → τ) (x : τ),
      LOOP_UNROLLED4 c 0 x = (c (c (c (c x))), -1) := by
    intro τ c x
    simp only [LOOP_UNROLLED4]
    have e : Int.tdiv (0 + 3) 4 = 0 := by decide
    rw [if_pos (by decide), loop_test, e, dif_neg (by decide)]
    rfl
  exact ⟨h σ code s, by decide, by decide, h _ visit (0, [])⟩

/-! ## Ranges of the blend equations -/

theorem add_channel (d s : Int) (hd : channel d) (hs : channel s) :
    channel (if d + s ≤ 255 then d + s else 255) := by
  unfold channel at *
  split <;> omega

theorem sub_channel (d s : Int) (hd : channel d) (hs : channel s) :
    channel (if d - s ≥ 0 then d - s else 0) := by
  unfold channel at *
  split <;> omega

theorem mult_bounds (d s : Int) (hd : channel d) (hs : channel s) (h : d ≠ 0 ∧ s ≠ 0) :
    1 ≤ ((d * s) + 255) >>> (8 : Nat) ∧ ((d * s) + 255) >>> (8 : Nat) ≤ d ∧
    ((d * s) + 255) >>> (8 : Nat) ≤ s ∧ (s = 255 → ((d * s) + 255) >>> (8 : Nat) = d) := by
  unfold channel at *
  rw [shiftRight_8_eq_div]
  have h1 : d * s ≤ d * 255 := mul_le_mul_of_nonneg_left hs.2 hd.1
  have h2 : d * s ≤ 255 * s := mul_le_mul_of_nonneg_right hd.2 hs.1
  have h3 : 1 * 1 ≤ d * s := mul_le_mul (by omega) (by omega) (by norm_num) hd.1
  refine ⟨by omega, by omega, by omega, ?_⟩
  intro hs255
  subst hs255
  omega

theorem mult_channel (d s : Int) (hd : channel d) (hs : channel s) :
    channel (if d ≠ 0 ∧ s ≠ 0 then ((d * s) + 255) >>> (8 : Nat) else 0) := by
  by_cases h : d ≠ 0 ∧ s ≠ 0
  · rw [if_pos h]
    have hb := mult_bounds d s hd hs h
    unfold channel at *
    omega
  · rw [if_neg h]
    exact ⟨le_refl 0, by norm_num⟩

theorem alpha_comp_channel (sp : Bool) (s d a : Int) (hs : channel s) (hd : channel d)
    (ha : channel a) : channel (ALPHA_BLEND_COMP sp s d a) := by
  rw [alpha_blend_comp_eq_div]
  unfold channel at *
  have h1 : d * a ≤ d * 255 := mul_le_mul_of_nonneg_left ha.2 hd.1
  have h2 : s * a ≤ s * 255 := mul_le_mul_of_nonneg_left ha.2 hs.1
  have h3 : 0 ≤ s * a := mul_nonneg hs.1 ha.1
  have h4 : 0 ≤ d * a := mul_nonneg hd.1 ha.1
  have h5 : s * a ≤ 255 * a := mul_le_mul_of_nonneg_right hs.2 ha.1
  have h6 : 0 ≤ (255 - d) * (256 - a) := mul_nonneg (by omega) (by omega)
  have e6 : (255 - d) * (256 - a) = 255 * 256 - 255 * a - 256 * d + d * a := by ring
  rw [e6] at h6
  have e : (s - d) * a = s * a - d * a := by ring
  rw [e]
  constructor
  · apply Int.ediv_nonneg _ (by norm_num)
    omega
  · omega

theorem alpha_formula_bounds (sA dA : Int) (hs : channel sA) (hd : channel dA) :
    max sA dA ≤ sA + dA - (sA * dA) / 255 ∧ sA + dA - (sA * dA) / 255 ≤ 255 := by
  unfold channel at *
  have h1 : sA * dA ≤ sA * 255 := mul_le_mul_of_nonneg_left hd.2 hs.1
  have h2 : sA * dA ≤ 255 * dA := mul_le_mul_of_nonneg_right hs.2 hd.1
  have h3 : 0 ≤ (255 - sA) * (255 - dA) := mul_nonneg (by omega) (by omega)
  have e : (255 - sA) * (255 - dA) = 255 * 255 - 255 * sA - 255 * dA + sA * dA := by ring
  rw [e] at h3
  constructor
  · rw [max_le_iff]
    constructor <;> omega
  · omega

theorem channels_ok_add (v : BlendVars) (hv : channels_ok v) :
    channels_ok (BLEND_ADD v) ∧ channels_ok (BLEND_RGBA_ADD v) := by
  obtain ⟨tmp, sR, sG, sB, sA, dR, dG, dB, dA⟩ := v
  obtain ⟨hsR, hsG, hsB, hsA, hdR, hdG, hdB, hdA⟩ := hv
  exact ⟨⟨hsR, hsG, hsB, hsA, add_channel dR sR hdR hsR, add_channel dG sG hdG hsG,
      add_channel dB sB hdB hsB, hdA⟩,
    ⟨hsR, hsG, hsB, hsA, add_channel dR sR hdR hsR, add_channel dG sG hdG hsG,
      add_channel dB sB hdB hsB, add_channel dA sA hdA hsA⟩⟩

theorem channels_ok_sub (v : BlendVars) (hv : channels_ok v) :
    channels_ok (BLEND_SUB v) ∧ channels_ok (BLEND_RGBA_SUB v) := by
  obtain ⟨tmp, sR, sG, sB, sA, dR, dG, dB, dA⟩ := v
  obtain ⟨hsR, hsG, hsB, hsA, hdR, hdG, hdB, hdA⟩ := hv
  exact ⟨⟨hsR, hsG, hsB, hsA, sub_channel dR sR hdR hsR, sub_channel dG sG hdG hsG,
      sub_channel dB sB hdB hsB, hdA⟩,
    ⟨hsR, hsG, hsB, hsA, sub_channel dR sR hdR hsR, sub_channel dG sG hdG hsG,
      sub_channel dB sB hdB hsB, sub_channel dA sA hdA hsA⟩⟩

theorem channels_ok_mult (v : BlendVars) (hv : channels_ok v) :
    channels_ok (BLEND_MULT v) ∧ channels_ok (BLEND_RGBA_MULT v) := by
  obtain ⟨tmp, sR, sG, sB, sA, dR, dG, dB, dA⟩ := v
  obtain ⟨hsR, hsG, hsB, hsA, hdR, hdG, hdB, hdA⟩ := hv
  exact ⟨⟨hsR, hsG, hsB, hsA, mult_channel dR sR hdR hsR, mult_channel dG sG hdG hsG,
      mult_channel dB sB hdB hsB, hdA⟩,
    ⟨hsR, hsG, hsB, hsA, mult_channel dR sR hdR hsR, mult_channel dG sG hdG hsG,
      mult_channel dB sB hdB hsB, mult_channel dA sA hdA hsA⟩⟩

theorem channels_ok_min_max (v : BlendVars) (hv : channels_ok v) :
    channels_ok (BLEND_MIN v) ∧ channels_ok (BLEND_RGBA_MIN v) ∧
    channels_ok (BLEND_MAX v) ∧ channels_ok (BLEND_RGBA_MAX v) := by
  obtain ⟨tmp, sR, sG, sB, sA, dR, dG, dB, dA⟩ := v
  unfold channels_ok channel at *
  dsimp only at hv
  refine ⟨?_, ?_, ?_, ?_⟩ <;>
    simp only [BLEND_MIN, BLEND_RGBA_MIN, BLEND_MAX, BLEND_RGBA_MAX] <;>
    split_ifs <;> dsimp only <;> omega

theorem channels_ok_alpha (sp : Bool) (v : BlendVars) (hv : channels_ok v) :
    channels_ok (ALPHA_BLEND sp v) := by
  obtain ⟨tmp, sR, sG, sB, sA, dR, dG, dB, dA⟩ := v
  obtain ⟨hsR, hsG, hsB, hsA, hdR, hdG, hdB, hdA⟩ := hv
  dsimp only at *
  by_cases h : dA = 0
  · subst h
    exact ⟨hsR, hsG, hsB, hsA, hsR, hsG, hsB, hsA⟩
  · simp only [ALPHA_BLEND, ne_eq, h, not_false_eq_true, if_true]
    refine ⟨hsR, hsG, hsB, hsA, alpha_comp_channel sp sR dR sA hsR hdR hsA,
      alpha_comp_channel sp sG dG sA hsG hdG hsA, alpha_comp_channel sp sB dB sA hsB hdB hsA, ?_⟩
    dsimp only
    rw [tdiv_255_eq _ (mul_nonneg hsA.1 hdA.1)]
    have hb := alpha_formula_bounds sA dA hsA hdA
    have hm : sA ≤ max sA dA := le_max_left sA dA
    unfold channel at *
    omega

/-- Claim C23: the interval 0..255 is closed under the blend equations: for source and
destination components in 0..255, every component after `BLEND_ADD`,
`BLEND_SUB`, `BLEND_MULT`, `BLEND_MIN`, `BLEND_MAX`, their `BLEND_RGBA_*` variants
and `ALPHA_BLEND` (colour channels and alpha, either alternative of
`ALPHA_BLEND_COMP`) is again in 0..255. -/
theorem blend_channels_closed (v : BlendVars) (hv : channels_ok v) :
    channels_ok (BLEND_ADD v) ∧ channels_ok (BLEND_SUB v) ∧ channels_ok (BLEND_MULT v) ∧
    channels_ok (BLEND_MIN v) ∧ channels_ok (BLEND_MAX v) ∧
    channels_ok (BLEND_RGBA_ADD v) ∧ channels_ok (BLEND_RGBA_SUB v) ∧
    channels_ok (BLEND_RGBA_MULT v) ∧ channels_ok (BLEND_RGBA_MIN v) ∧
    channels_ok (BLEND_RGBA_MAX v) ∧
    channels_ok (ALPHA_BLEND true v) ∧ channels_ok (ALPHA_BLEND false v) :=
  ⟨(channels_ok_add v hv).1, (channels_ok_sub v hv).1, (channels_ok_mult v hv).1,
    (channels_ok_min_max v hv).1, (channels_ok_min_max v hv).2.2.1,
    (channels_ok_add v hv).2, (channels_ok_sub v hv).2, (channels_ok_mult v hv).2,
    (channels_ok_min_max v hv).2.1, (channels_ok_min_max v hv).2.2.2,
    channels_ok_alpha true v hv, channels_ok_alpha false v hv⟩

theorem blend_channels_closed_witness :
    channels_ok sample_pixels ∧ channels_ok (BLEND_RGBA_ADD sample_pixels) ∧
    channels_ok (ALPHA_BLEND true sample_pixels) :=
  ⟨by decide, (blend_channels_closed sample_pixels (by decide)).2.2.2.2.2.1,
    (blend_channels_closed sample_pixels (by decide)).2.2.2.2.2.2.2.2.2.2.1⟩

/-- Claim C24: `ALPHA_BLEND_COMP` has the source-over end points: for all `s`, `d` in
0..255 and either alternative, `ALPHA_BLEND_COMP(s, d, 0) = d` and
`ALPHA_BLEND_COMP(s, d, 255) = s`. -/
theorem alpha_blend_comp_end_points (sp : Bool) (s d : Int) (hs : channel s) (hd : channel d) :
    ALPHA_BLEND_COMP sp s d 0 = d ∧ ALPHA_BLEND_COMP sp s d 255 = s := by
  unfold channel at *
  rw [alpha_blend_comp_eq_div, alpha_blend_comp_eq_div]
  constructor
  · have e : (s - d) * 0 + s + d * 256 = s + d * 256 := by ring
    rw [e]
    omega
  · have e : (s - d) * 255 + s + d * 256 = d + s * 256 := by ring
    rw [e]
    omega

theorem alpha_blend_comp_end_points_witness :
    (channel 200 ∧ channel 17) ∧
    ALPHA_BLEND_COMP true 200 17 0 = 17 ∧ ALPHA_BLEND_COMP true 200 17 255 = 200 ∧
    ALPHA_BLEND_COMP false 200 17 0 = 17 ∧ ALPHA_BLEND_COMP false 200 17 255 = 200 :=
  ⟨by decide, (alpha_blend_comp_end_points true 200 17 (by decide) (by decide)).1,
    (alpha_blend_comp_end_points true 200 17 (by decide) (by decide)).2,
    (alpha_blend_comp_end_points false 200 17 (by decide) (by decide)).1,
    (alpha_blend_comp_end_points false 200 17 (by decide) (by decide)).2⟩

/-- Claim C25: for all `sA`, `dA` in 0..255 with `dA` nonzero, the destination alpha
written by `ALPHA_BLEND` is `sA + dA - (sA * dA) / 255`, at least `max(sA, dA)`
and at most 255. -/
theorem alpha_blend_alpha_monotone (sp : Bool) (v : BlendVars) (hv : channels_ok v)
    (hdA : v.dA ≠ 0) :
    (ALPHA_BLEND sp v).dA = v.sA + v.dA - (v.sA * v.dA) / 255 ∧
    max v.sA v.dA ≤ (ALPHA_BLEND sp v).dA ∧ (ALPHA_BLEND sp v).dA ≤ 255 ∧
    v.dA ≤ (ALPHA_BLEND sp v).dA := by
  have hb := alpha_formula_bounds v.sA v.dA hv.2.2.2.1 hv.2.2.2.2.2.2.2
  rw [alpha_blend_dA sp v hv]
  exact ⟨rfl, hb.1, hb.2, le_trans (le_max_right _ _) hb.1⟩

theorem alpha_blend_alpha_monotone_witness :
    channels_ok sample_pixels ∧ sample_pixels.dA ≠ 0 ∧
    (ALPHA_BLEND true sample_pixels).dA = 84 ∧
    max sample_pixels.sA sample_pixels.dA ≤ (ALPHA_BLEND true sample_pixels).dA :=
  ⟨by decide, by decide, by decide,
    (alpha_blend_alpha_monotone true sample_pixels (by decide) (by decide)).2.1⟩

/-- Claim C26: for a premultiplied source, that is for `sA`, `d` in 0..255 and a source
channel `s` with `0 <= s <= sA`, `ALPHA_BLEND_PREMULTIPLIED_COMP(s, d, sA)` is
`s + d - (((d + 1) * sA) >> 8)` and lies in 0..255; without `s <= sA` it can
exceed 255: `s = 255`, `d = 255`, `sA = 0` gives 510. -/
theorem premultiplied_comp_range (s d sA : Int) (ha : channel sA) (hd : channel d)
    (hs : 0 ≤ s ∧ s ≤ sA) :
    ALPHA_BLEND_PREMULTIPLIED_COMP s d sA = s + d - (((d + 1) * sA) >>> (8 : Nat)) ∧
    channel (ALPHA_BLEND_PREMULTIPLIED_COMP s d sA) ∧
    ALPHA_BLEND_PREMULTIPLIED_COMP 255 255 0 = 510 := by
  refine ⟨rfl, ?_, by decide⟩
  unfold ALPHA_BLEND_PREMULTIPLIED_COMP
  rw [shiftRight_8_eq_div]
  unfold channel at *
  have h1 : (d + 1) * sA ≤ (d + 1) * 255 := mul_le_mul_of_nonneg_left ha.2 (by omega)
  have h2 : 0 ≤ (255 - d) * (256 - sA) := mul_nonneg (by omega) (by omega)
  have e2 : (255 - d) * (256 - sA) = 255 * 256 - 255 * sA - 256 * d + d * sA := by ring
  have e3 : (d + 1) * sA = d * sA + sA := by ring
  rw [e2] at h2
  rw [e3] at h1 ⊢
  constructor <;> omega

theorem premultiplied_comp_range_witness :
    (channel 128 ∧ channel 255 ∧ ((0 : Int) ≤ 128 ∧ (128 : Int) ≤ 128)) ∧
    ALPHA_BLEND_PREMULTIPLIED_COMP 128 255 128 = 255 ∧
    channel (ALPHA_BLEND_PREMULTIPLIED_COMP 128 255 128) :=
  ⟨by decide, by decide,
    (premultiplied_comp_range 128 255 128 (by decide) (by decide) (by decide)).2.1⟩

/-- Claim C27: `BLEND_MULT` never brightens and has 255 as its identity: for `d`, `s` in
0..255 the result of each colour channel is at most `min(d, s)`, equals `d` when
`s = 255`, and is 0 only when `d = 0` or `s = 0`. -/
theorem BLEND_MULT_darkens (v : BlendVars) (hv : channels_ok v) :
    ((BLEND_MULT v).dR ≤ min v.dR v.sR ∧ (v.sR = 255 → (BLEND_MULT v).dR = v.dR) ∧
      ((BLEND_MULT v).dR = 0 → v.dR = 0 ∨ v.sR = 0)) ∧
    ((BLEND_MULT v).dG ≤ min v.dG v.sG ∧ (v.sG = 255 → (BLEND_MULT v).dG = v.dG) ∧
      ((BLEND_MULT v).dG = 0 → v.dG = 0 ∨ v.sG = 0)) ∧
    ((BLEND_MULT v).dB ≤ min v.dB v.sB ∧ (v.sB = 255 → (BLEND_MULT v).dB = v.dB) ∧
      ((BLEND_MULT v).dB = 0 → v.dB = 0 ∨ v.sB = 0)) := by
  have key : ∀ d s : Int, channel d → channel s →
      ((if d ≠ 0 ∧ s ≠ 0 then ((d * s) + 255) >>> (8 : Nat) else 0) ≤ min d s ∧
        (s = 255 → (if d ≠ 0 ∧ s ≠ 0 then ((d * s) + 255) >>> (8 : Nat) else 0) = d) ∧
        ((if d ≠ 0 ∧ s ≠ 0 then ((d * s) + 255) >>> (8 : Nat) else 0) = 0 → d = 0 ∨ s = 0)) := by
    intro d s hd hs
    by_cases h : d ≠ 0 ∧ s ≠ 0
    · rw [if_pos h]
      have hb := mult_bounds d s hd hs h
      refine ⟨le_min hb.2.1 hb.2.2.1, hb.2.2.2, ?_⟩
      intro h0
      omega
    · rw [if_neg h]
      unfold channel at hd hs
      refine ⟨le_min hd.1 hs.1, ?_, ?_⟩
      · intro hs255
        omega
      · intro _
        omega
  obtain ⟨tmp, sR, sG, sB, sA, dR, dG, dB, dA⟩ := v
  obtain ⟨hsR, hsG, hsB, hsA, hdR, hdG, hdB, hdA⟩ := hv
  exact ⟨key dR sR hdR hsR, key dG sG hdG hsG, key dB sB hdB hsB⟩

theorem BLEND_MULT_darkens_witness :
    channels_ok ⟨0, 255, 128, 1, 255, 77, 128, 0, 255⟩ ∧
    (BLEND_MULT ⟨0, 255, 128, 1, 255, 77, 128, 0, 255⟩).dR = 77 ∧
    (BLEND_MULT ⟨0, 255, 128, 1, 255, 77, 128, 0, 255⟩).dG = 64 ∧
    (BLEND_MULT ⟨0, 255, 128, 1, 255, 77, 128, 0, 255⟩).dB = 0 :=
  ⟨by decide,
    (BLEND_MULT_darkens ⟨0, 255, 128, 1, 255, 77, 128, 0, 255⟩ (by decide)).1.2.1 rfl,
    by decide, by decide⟩

/-! ## Pixel packing and byte offsets of surface.h -/

theorem load_store_Uint16 (e : SDL_BYTEORDER) (m : Nat → Nat) (v : Nat) :
    load_Uint16 e (store_Uint16 e m v) = v % 2 ^ 16 := by
  cases e <;>
    simp only [load_Uint16, store_Uint16, Nat.shiftLeft_eq, Nat.shiftRight_eq_div_pow] <;>
    norm_num <;> omega

theorem load_store_Uint32 (e : SDL_BYTEORDER) (m : Nat → Nat) (v : Nat) :
    load_Uint32 e (store_Uint32 e m v) = v % 2 ^ 32 := by
  cases e <;>
    simp only [load_Uint32, store_Uint32, Nat.shiftLeft_eq, Nat.shiftRight_eq_div_pow] <;>
    norm_num <;> omega

theorem testBit_channel_high (x i : Nat) (hx : x ≤ 255) (hi : 8 ≤ i) : x.testBit i = false := by
  apply Nat.testBit_lt_two_pow
  calc x < 2 ^ 8 := by omega
    _ ≤ 2 ^ i := Nat.pow_le_pow_right (by norm_num) hi

theorem field_own (c l s j : Nat) :
    ((c >>> l) <<< s).testBit (s + j) = c.testBit (l + j) := by
  rw [Nat.testBit_shiftLeft, Nat.testBit_shiftRight]
  simp

theorem field_other (x l s i : Nat) (hx : x ≤ 255) (h : i < s ∨ s + (8 - l) ≤ i ∨ 8 ≤ l) :
    ((x >>> l) <<< s).testBit i = false := by
  rw [Nat.testBit_shiftLeft, Nat.testBit_shiftRight]
  by_cases hi : i ≥ s
  · rw [testBit_channel_high x _ hx (by omega)]
    simp
  · simp [hi]

theorem extract_field (N W c l s : Nat) (hfit : s + (8 - l) ≤ N) (hc : c ≤ 255)
    (hW : ∀ j, l + j < 8 → W.testBit (s + j) = c.testBit (l + j)) :
    ((W % 2 ^ N) >>> s) &&& (255 >>> l) = c >>> l := by
  apply Nat.eq_of_testBit_eq
  intro j
  have e255 : (255 : Nat) = 2 ^ 8 - 1 := by norm_num
  rw [Nat.testBit_and, Nat.testBit_shiftRight, Nat.testBit_shiftRight, Nat.testBit_shiftRight,
    Nat.testBit_mod_two_pow, e255, Nat.testBit_two_pow_sub_one]
  by_cases h : l + j < 8
  · rw [hW j h]
    have h2 : s + j < N := by omega
    simp [h, h2]
  · rw [testBit_channel_high c _ hc (by omega)]
    simp [h]

theorem disjoint_left (cs cl xs xl j : Nat) (hd : fields_disjoint cs cl xs xl)
    (hj : cl + j < 8) : cs + j < xs ∨ xs + (8 - xl) ≤ cs + j ∨ 8 ≤ xl := by
  unfold fields_disjoint at hd
  omega

theorem disjoint_right (cs cl xs xl j : Nat) (hd : fields_disjoint xs xl cs cl)
    (hj : cl + j < 8) : cs + j < xs ∨ xs + (8 - xl) ≤ cs + j ∨ 8 ≤ xl := by
  unfold fields_disjoint at hd
  omega

theorem pixel_bits_fields (r g b a : Nat) (ft : SDL_PixelFormat)
    (hr : r ≤ 255) (hg : g ≤ 255) (hb : b ≤ 255) (ha : a ≤ 255) (hdis : format_disjoint ft) :
    (∀ j, ft.Rloss + j < 8 →
      (pixel_bits r g b a ft).testBit (ft.Rshift + j) = r.testBit (ft.Rloss + j)) ∧
    (∀ j, ft.Gloss + j < 8 →
      (pixel_bits r g b a ft).testBit (ft.Gshift + j) = g.testBit (ft.Gloss + j)) ∧
    (∀ j, ft.Bloss + j < 8 →
      (pixel_bits r g b a ft).testBit (ft.Bshift + j) = b.testBit (ft.Bloss + j)) ∧
    (∀ j, ft.Aloss + j < 8 →
      (pixel_bits r g b a ft).testBit (ft.Ashift + j) = a.testBit (ft.Aloss + j)) := by
  obtain ⟨hRG, hRB, hRA, hGB, hGA, hBA⟩ := hdis
  unfold pixel_bits
  refine ⟨?_, ?_, ?_, ?_⟩ <;> intro j hj <;>
    rw [Nat.testBit_or, Nat.testBit_or, Nat.testBit_or]
  · have h1 := field_other g ft.Gloss ft.Gshift (ft.Rshift + j) hg (disjoint_left _ _ _ _ j hRG hj)
    have h2 := field_other b ft.Bloss ft.Bshift (ft.Rshift + j) hb (disjoint_left _ _ _ _ j hRB hj)
    have h3 := field_other a ft.Aloss ft.Ashift (ft.Rshift + j) ha (disjoint_left _ _ _ _ j hRA hj)
    rw [field_own, h1, h2, h3]
    simp
  · have h1 := field_other r ft.Rloss ft.Rshift (ft.Gshift + j) hr (disjoint_right _ _ _ _ j hRG hj)
    have h2 := field_other b ft.Bloss ft.Bshift (ft.Gshift + j) hb (disjoint_left _ _ _ _ j hGB hj)
    have h3 := field_other a ft.Aloss ft.Ashift (ft.Gshift + j) ha (disjoint_left _ _ _ _ j hGA hj)
    rw [field_own, h1, h2, h3]
    simp
  · have h1 := field_other r ft.Rloss ft.Rshift (ft.Bshift + j) hr (disjoint_right _ _ _ _ j hRB hj)
    have h2 := field_other g ft.Gloss ft.Gshift (ft.Bshift + j) hg (disjoint_right _ _ _ _ j hGB hj)
    have h3 := field_other a ft.Aloss ft.Ashift (ft.Bshift + j) ha (disjoint_left _ _ _ _ j hBA hj)
    rw [field_own, h1, h2, h3]
    simp
  · have h1 := field_other r ft.Rloss ft.Rshift (ft.Ashift + j) hr (disjoint_right _ _ _ _ j hRA hj)
    have h2 := field_other g ft.Gloss ft.Gshift (ft.Ashift + j) hg (disjoint_right _ _ _ _ j hGA hj)
    have h3 := field_other b ft.Bloss ft.Bshift (ft.Ashift + j) hb (disjoint_right _ _ _ _ j hBA hj)
    rw [field_own, h1, h2, h3]
    simp

theorem stored_pixel (e : SDL_BYTEORDER) (buf : Nat → Nat) (r g b a : Nat)
    (ft : SDL_PixelFormat) :
    GET_PIXEL e 4 (CREATE_PIXEL e buf r g b a 4 ft) = pixel_bits r g b a ft % 2 ^ 32 ∧
    GET_PIXEL e 2 (CREATE_PIXEL e buf r g b a 2 ft) = pixel_bits r g b a ft % 2 ^ 16 := by
  constructor
  · unfold GET_PIXEL CREATE_PIXEL
    rw [if_neg (by decide), if_pos rfl, if_neg (by decide), if_pos rfl, load_store_Uint32]
  · unfold GET_PIXEL CREATE_PIXEL
    rw [if_pos rfl, if_pos rfl, load_store_Uint16]

/-- Claim C28: `CREATE_PIXEL` packs the channels losslessly up to the loss of the format:
for `bp = 4`, and for `bp = 2` when all fields fit in 16 bits, for `r`, `g`, `b`,
`a` in 0..255 and a format whose four channel fields are pairwise disjoint, the
stored word `w` satisfies `(w >> Cshift) & (0xFF >> Closs) = c >> Closs` for each
channel `c`; with all losses 0 every component is recovered exactly. -/
theorem CREATE_PIXEL_packs (e : SDL_BYTEORDER) (buf : Nat → Nat) (r g b a : Nat) (bp : Int)
    (ft : SDL_PixelFormat)
    (hr : r ≤ 255) (hg : g ≤ 255) (hb : b ≤ 255) (ha : a ≤ 255)
    (hdis : format_disjoint ft) (hbp : bp = 4 ∨ (bp = 2 ∧ format_within16 ft)) :
    ((GET_PIXEL e bp (CREATE_PIXEL e buf r g b a bp ft) >>> ft.Rshift) &&& (0xFF >>> ft.Rloss)
        = r >>> ft.Rloss ∧
      (GET_PIXEL e bp (CREATE_PIXEL e buf r g b a bp ft) >>> ft.Gshift) &&& (0xFF >>> ft.Gloss)
        = g >>> ft.Gloss ∧
      (GET_PIXEL e bp (CREATE_PIXEL e buf r g b a bp ft) >>> ft.Bshift) &&& (0xFF >>> ft.Bloss)
        = b >>> ft.Bloss ∧
      (GET_PIXEL e bp (CREATE_PIXEL e buf r g b a bp ft) >>> ft.Ashift) &&& (0xFF >>> ft.Aloss)
        = a >>> ft.Aloss) ∧
    (ft.Rloss = 0 ∧ ft.Gloss = 0 ∧ ft.Bloss = 0 ∧ ft.Aloss = 0 →
      (GET_PIXEL e bp (CREATE_PIXEL e buf r g b a bp ft) >>> ft.Rshift) &&& 0xFF = r ∧
      (GET_PIXEL e bp (CREATE_PIXEL e buf r g b a bp ft) >>> ft.Gshift) &&& 0xFF = g ∧
      (GET_PIXEL e bp (CREATE_PIXEL e buf r g b a bp ft) >>> ft.Bshift) &&& 0xFF = b ∧
      (GET_PIXEL e bp (CREATE_PIXEL e buf r g b a bp ft) >>> ft.Ashift) &&& 0xFF = a) := by
  have hf := pixel_bits_fields r g b a ft hr hg hb ha hdis
  have h32 := ft.within32
  have main :
      (GET_PIXEL e bp (CREATE_PIXEL e buf r g b a bp ft) >>> ft.Rshift) &&& (0xFF >>> ft.Rloss)
          = r >>> ft.Rloss ∧
        (GET_PIXEL e bp (CREATE_PIXEL e buf r g b a bp ft) >>> ft.Gshift) &&& (0xFF >>> ft.Gloss)
          = g >>> ft.Gloss ∧
        (GET_PIXEL e bp (CREATE_PIXEL e buf r g b a bp ft) >>> ft.Bshift) &&& (0xFF >>> ft.Bloss)
          = b >>> ft.Bloss ∧
        (GET_PIXEL e bp (CREATE_PIXEL e buf r g b a bp ft) >>> ft.Ashift) &&& (0xFF >>> ft.Aloss)
          = a >>> ft.Aloss := by
    rcases hbp with rfl | ⟨rfl, h16⟩
    · rw [(stored_pixel e buf r g b a ft).1]
      exact ⟨extract_field 32 _ r _ _ h32.1 hr hf.1,
        extract_field 32 _ g _ _ h32.2.1 hg hf.2.1,
        extract_field 32 _ b _ _ h32.2.2.1 hb hf.2.2.1,
        extract_field 32 _ a _ _ h32.2.2.2 ha hf.2.2.2⟩
    · rw [(stored_pixel e buf r g b a ft).2]
      exact ⟨extract_field 16 _ r _ _ h16.1 hr hf.1,
        extract_field 16 _ g _ _ h16.2.1 hg hf.2.1,
        extract_field 16 _ b _ _ h16.2.2.1 hb hf.2.2.1,
        extract_field 16 _ a _ _ h16.2.2.2 ha hf.2.2.2⟩
  refine ⟨main, ?_⟩
  rintro ⟨h1, h2, h3, h4⟩
  obtain ⟨m1, m2, m3, m4⟩ := main
  rw [h1] at m1
  rw [h2] at m2
  rw [h3] at m3
  rw [h4] at m4
  exact ⟨m1, m2, m3, m4⟩

theorem CREATE_PIXEL_packs_witness :
    ((200 : Nat) ≤ 255 ∧ (100 : Nat) ≤ 255 ∧ (50 : Nat) ≤ 255 ∧ (255 : Nat) ≤ 255) ∧
    format_disjoint argb8888 ∧ format_disjoint rgb565 ∧ format_within16 rgb565 ∧
    GET_PIXEL .SDL_LIL_ENDIAN 4 (CREATE_PIXEL .SDL_LIL_ENDIAN sample_bytes 200 100 50 255 4 argb8888)
      = 4291322930 ∧
    (GET_PIXEL .SDL_LIL_ENDIAN 4
        (CREATE_PIXEL .SDL_LIL_ENDIAN sample_bytes 200 100 50 255 4 argb8888) >>> argb8888.Rshift)
      &&& 0xFF = 200 ∧
    (GET_PIXEL .SDL_BIG_ENDIAN 2
        (CREATE_PIXEL .SDL_BIG_ENDIAN sample_bytes 200 100 50 255 2 rgb565) >>> rgb565.Gshift)
      &&& (0xFF >>> rgb565.Gloss) = 100 >>> rgb565.Gloss :=
  ⟨by decide, by decide, by decide, by decide, by decide,
    ((CREATE_PIXEL_packs .SDL_LIL_ENDIAN sample_bytes 200 100 50 255 4 argb8888 (by decide)
      (by decide) (by decide) (by decide) (by decide) (Or.inl rfl)).2
      ⟨rfl, rfl, rfl, rfl⟩).1,
    (CREATE_PIXEL_packs .SDL_BIG_ENDIAN sample_bytes 200 100 50 255 2 rgb565 (by decide)
      (by decide) (by decide) (by decide) (by decide) (Or.inr ⟨rfl, by decide⟩)).1.2.1⟩

/-- Claim C29: `CREATE_PIXEL` writes nothing for depths other than 2 and 4: for `bp = 1`,
`bp = 3` and any other `bp` not in `{2, 4}` the memory at `buf` is unchanged, for
every `r`, `g`, `b`, `a` and every format. -/
theorem CREATE_PIXEL_other_depths (e : SDL_BYTEORDER) (buf : Nat → Nat) (r g b a : Nat)
    (bp : Int) (ft : SDL_PixelFormat) (h2 : bp ≠ 2) (h4 : bp ≠ 4) :
    CREATE_PIXEL e buf r g b a bp ft = buf ∧
    CREATE_PIXEL e buf r g b a 1 ft = buf ∧ CREATE_PIXEL e buf r g b a 3 ft = buf := by
  unfold CREATE_PIXEL
  rw [if_neg h2, if_neg h4, if_neg (by decide), if_neg (by decide), if_neg (by decide),
    if_neg (by decide)]
  exact ⟨rfl, rfl, rfl⟩

theorem CREATE_PIXEL_other_depths_witness :
    ((3 : Int) ≠ 2 ∧ (3 : Int) ≠ 4) ∧
    CREATE_PIXEL .SDL_LIL_ENDIAN sample_bytes 200 100 50 255 3 argb8888 = sample_bytes :=
  ⟨by decide,
    (CREATE_PIXEL_other_depths .SDL_LIL_ENDIAN sample_bytes 200 100 50 255 3 argb8888
      (by decide) (by decide)).1⟩

theorem byte_of_pixel_24 (e : SDL_BYTEORDER) (b : Nat → Nat) (shift : Nat)
    (hb : ∀ i, i < 3 → b i < 256) (hs : shift = 0 ∨ shift = 8 ∨ shift = 16) :
    b (offset_24 e shift) = (GET_PIXEL_24 e b >>> shift) &&& 0xFF := by
  have h0 := hb 0 (by norm_num)
  have h1 := hb 1 (by norm_num)
  have h2 := hb 2 (by norm_num)
  have e255 : (0xFF : Nat) = 2 ^ 8 - 1 := by norm_num
  rw [e255, Nat.and_pow_two_sub_one_eq_mod]
  cases e <;> rcases hs with rfl | rfl | rfl <;>
    simp only [offset_24, GET_PIXEL_24, Nat.shiftLeft_eq, Nat.shiftRight_eq_div_pow] <;>
    norm_num <;> omega

theorem byte_of_pixel_32 (e : SDL_BYTEORDER) (b : Nat → Nat) (shift : Nat)
    (hb : ∀ i, i < 4 → b i < 256) (hs : shift = 0 ∨ shift = 8 ∨ shift = 16 ∨ shift = 24) :
    b (offset_32 e shift) = (load_Uint32 e b >>> shift) &&& 0xFF := by
  have h0 := hb 0 (by norm_num)
  have h1 := hb 1 (by norm_num)
  have h2 := hb 2 (by norm_num)
  have h3 := hb 3 (by norm_num)
  have e255 : (0xFF : Nat) = 2 ^ 8 - 1 := by norm_num
  rw [e255, Nat.and_pow_two_sub_one_eq_mod]
  cases e <;> rcases hs with rfl | rfl | rfl | rfl <;>
    simp only [offset_32, load_Uint32, Nat.shiftLeft_eq, Nat.shiftRight_eq_div_pow] <;>
    norm_num <;> omega

/-- Claim C30: the byte offsets computed by `SET_OFFSETS_24` and `SET_OFFSETS_32` select the
byte that holds the channel: for a pixel value `p` assembled from the bytes
`b[0..2]` by `GET_PIXEL_24`, respectively read from four bytes as a native 32-bit
word, and channel shifts in `{0, 8, 16}`, respectively `{0, 8, 16, 24}`,
`b[offset] = (p >> shift) & 0xFF`, on little-endian and on big-endian machines. -/
theorem SET_OFFSETS_select_channel_byte (e : SDL_BYTEORDER) (fmt : SDL_PixelFormat)
    (b : Nat → Nat) (hb : ∀ i, i < 4 → b i < 256) :
    ((fmt.Rshift = 0 ∨ fmt.Rshift = 8 ∨ fmt.Rshift = 16) →
      (fmt.Gshift = 0 ∨ fmt.Gshift = 8 ∨ fmt.Gshift = 16) →
      (fmt.Bshift = 0 ∨ fmt.Bshift = 8 ∨ fmt.Bshift = 16) →
      b (SET_OFFSETS_24 e fmt).1 = (GET_PIXEL_24 e b >>> fmt.Rshift) &&& 0xFF ∧
      b (SET_OFFSETS_24 e fmt).2.1 = (GET_PIXEL_24 e b >>> fmt.Gshift) &&& 0xFF ∧
      b (SET_OFFSETS_24 e fmt).2.2 = (GET_PIXEL_24 e b >>> fmt.Bshift) &&& 0xFF) ∧
    ((fmt.Rshift = 0 ∨ fmt.Rshift = 8 ∨ fmt.Rshift = 16 ∨ fmt.Rshift = 24) →
      (fmt.Gshift = 0 ∨ fmt.Gshift = 8 ∨ fmt.Gshift = 16 ∨ fmt.Gshift = 24) →
      (fmt.Bshift = 0 ∨ fmt.Bshift = 8 ∨ fmt.Bshift = 16 ∨ fmt.Bshift = 24) →
      b (SET_OFFSETS_32 e fmt).1 = (GET_PIXEL e 4 b >>> fmt.Rshift) &&& 0xFF ∧
      b (SET_OFFSETS_32 e fmt).2.1 = (GET_PIXEL e 4 b >>> fmt.Gshift) &&& 0xFF ∧
      b (SET_OFFSETS_32 e fmt).2.2 = (GET_PIXEL e 4 b >>> fmt.Bshift) &&& 0xFF) := by
  have hb3 : ∀ i, i < 3 → b i < 256 := fun i hi => hb i (by omega)
  have e4 : GET_PIXEL e 4 b = load_Uint32 e b := by
    unfold GET_PIXEL
    rw [if_neg (by decide), if_pos rfl]
  constructor
  · intro hR hG hB
    exact ⟨byte_of_pixel_24 e b _ hb3 hR, byte_of_pixel_24 e b _ hb3 hG,
      byte_of_pixel_24 e b _ hb3 hB⟩
  · intro hR hG hB
    rw [e4]
    exact ⟨byte_of_pixel_32 e b _ hb hR, byte_of_pixel_32 e b _ hb hG,
      byte_of_pixel_32 e b _ hb hB⟩

theorem SET_OFFSETS_select_channel_byte_witness :
    (∀ i, i < 4 → sample_bytes i < 256) ∧
    SET_OFFSETS_32 .SDL_BIG_ENDIAN argb8888 = (1, 2, 3) ∧
    GET_PIXEL .SDL_BIG_ENDIAN 4 sample_bytes = 287454020 ∧
    sample_bytes (SET_OFFSETS_32 .SDL_BIG_ENDIAN argb8888).1 =
      (GET_PIXEL .SDL_BIG_ENDIAN 4 sample_bytes >>> argb8888.Rshift) &&& 0xFF :=
  ⟨by decide, by decide, by decide,
    ((SET_OFFSETS_select_channel_byte .SDL_BIG_ENDIAN argb8888 sample_bytes (by decide)).2
      (by decide) (by decide) (by decide)).1⟩

end Pygame
